import Mathlib

/-!
Verification development for the financial statement extractor
(`financial_statement_extractor.py`).  The parsing core of the source is
embedded shallowly: page texts are lists of characters, Python dicts are
association lists preserving insertion order (updates keep the position of an
existing key, new keys are appended, exactly as CPython dicts behave), and
monetary amounts are exact rationals; Python `float` parsing on the restricted
token grammar produced by the tokenizer regexes is modelled by exact decimal
reading.  Unchecked dict subscripts (which can raise `KeyError` in Python) are
modelled in the `Option` monad, `none` standing for a propagated exception.
-/

/- The Batteries rational-number operations are `@[irreducible]`, which stops
concrete evaluation of parsed amounts; proofs here evaluate them, so they are
unsealed. -/
unseal Rat.add Rat.mul Rat.inv Rat.sub Rat.ofScientific

namespace FinExtract

/-- Characters of a Python string; lines never contain a newline after
`split('\n')`. -/
abbrev Str := List Char

/-- Conversion from Lean string literals to the character-list model. -/
def lc (s : String) : Str := s.data

/-- Python `\s` / `str.strip` whitespace, restricted to the ASCII range that
occurs in extracted page text. -/
def isPySpace (c : Char) : Bool :=
  c == ' ' || c == '\t' || c == '\n' || c == '\r' || c == '\x0b' || c == '\x0c'

/-- Python `\d` on ASCII input. -/
def isDigitChar (c : Char) : Bool := c.isDigit

/-- The character class `[\d,]` used by the amount regexes. -/
def isDigitComma (c : Char) : Bool := c.isDigit || c == ','

/-- `leadsWith p s` is true when `p` occurs at the very beginning of `s`
(the substring test used for Python's `str.find` / `in`). -/
def leadsWith : Str → Str → Bool
  | [], _ => true
  | _ :: _, [] => false
  | p :: ps, c :: cs => p == c && leadsWith ps cs

/-- Python `str.strip()`. -/
def pyStrip (cs : Str) : Str :=
  ((cs.dropWhile isPySpace).reverse.dropWhile isPySpace).reverse

/-- Python `text.split('\n')` (keeps empty pieces, result is never empty). -/
def splitLines : Str → List Str
  | [] => [[]]
  | c :: cs =>
    if c == '\n' then [] :: splitLines cs
    else
      match splitLines cs with
      | l :: ls => (c :: l) :: ls
      | [] => [[c]]

/-- Decidable occurrence test: the pattern occurs in `text` at index `i`. -/
def occursAtB (text pat : Str) (i : Nat) : Bool :=
  decide (i ≤ text.length) && leadsWith pat (text.drop i)

/-- Occurrence of `pat` in `text` at index `i`, as a proposition. -/
abbrev occursAt (text pat : Str) (i : Nat) : Prop :=
  occursAtB text pat i = true

/-- `j` is the first occurrence of `pat` in `text` at or after `start`. -/
abbrev leastOcc (text pat : Str) (start j : Nat) : Prop :=
  start ≤ j ∧ occursAt text pat j ∧
    ∀ m ∈ List.range j, start ≤ m → ¬ occursAt text pat m

/-- Scanning worker for `strFind`; the fuel bounds the scanned positions. -/
def findAux (text pat : Str) : Nat → Nat → Option Nat
  | _, 0 => none
  | i, fuel + 1 =>
    if occursAtB text pat i then some i else findAux text pat (i + 1) fuel

/-- Python `text.find(pat, start)` for `0 ≤ start ≤ len(text)`, with `none`
in place of `-1`. -/
def strFind (text pat : Str) (start : Nat) : Option Nat :=
  if start ≤ text.length then findAux text pat start (text.length + 1 - start)
  else none

/-- Python `pat in text`. -/
def pyContains (text pat : Str) : Bool := (strFind text pat 0).isSome

/-- Embedding of `_extract_section`: the slice of `text` from the first
occurrence of `start_marker` to the first occurrence of `end_marker` searched
from that position (`text.find(end_marker, start_idx)`), the empty string when
the start marker is absent, and the tail of the text when no end occurrence
exists at or after the start.  (When the start marker is absent the Python
code returns `""` on both branches of its guard, so the negative-index detail
of `find(…, -1)` is unobservable.) -/
def extractSection (text start_marker end_marker : Str) : Str :=
  match strFind text start_marker 0 with
  | none => []
  | some s =>
    match strFind text end_marker s with
    | some e => (text.drop s).take (e - s)
    | none => text.drop s

/-! ### Python dicts as insertion-ordered association lists -/

/-- Insertion-ordered map, the model of a Python `dict`. -/
abbrev Dict (α β : Type) := List (α × β)

/-- `d[k] = v`: replace in place when the key is present, append otherwise. -/
def dinsert {α β : Type} [DecidableEq α] : Dict α β → α → β → Dict α β
  | [], k, v => [(k, v)]
  | (k1, v1) :: rest, k, v =>
    if k1 = k then (k1, v) :: rest else (k1, v1) :: dinsert rest k v

/-- `d.get(k)` / `d[k]` (keys are unique in dicts built by `dinsert`). -/
def dlookup {α β : Type} [DecidableEq α] : Dict α β → α → Option β
  | [], _ => none
  | (k1, v1) :: rest, k => if k1 = k then some v1 else dlookup rest k

/-- Python `d.get(k, dflt)`. -/
def dgetD {α β : Type} [DecidableEq α] (d : Dict α β) (k : α) (dflt : β) : β :=
  (dlookup d k).getD dflt

/-- Python `d1.update(d2)`. -/
def dictUpdate {α β : Type} [DecidableEq α] (d1 d2 : Dict α β) : Dict α β :=
  d2.foldl (fun a kv => dinsert a kv.1 kv.2) d1

/-- The keys of a dict, in insertion order. -/
def dkeys {α β : Type} (d : Dict α β) : List α := d.map Prod.fst

/-! ### The amount tokenizer: `re.findall(r'[\d,]+\.?\d*-?', line)` -/

/-- One token match of the amount regex at the head of the input (which must
start with a `[\d,]` character): greedy `[\d,]+`, optional `.`, greedy `\d*`,
optional trailing `-`.  All suffix parts are optional, so the greedy scan
needs no backtracking. -/
def faAux : Nat → Str → List Str
  | 0, _ => []
  | _ + 1, [] => []
  | fuel + 1, c :: rest =>
    if isDigitComma c then
      let r1 := (c :: rest).takeWhile isDigitComma
      let s1 := (c :: rest).dropWhile isDigitComma
      let p2 : Str × Str :=
        match s1 with
        | '.' :: t => ('.' :: t.takeWhile isDigitChar, t.dropWhile isDigitChar)
        | _ => ([], s1)
      let p3 : Str × Str :=
        match p2.2 with
        | '-' :: t => (['-'], t)
        | _ => ([], p2.2)
      (r1 ++ p2.1 ++ p3.1) :: faAux fuel p3.2
    else faAux fuel rest

/-- Embedding of `re.findall(r'[\d,]+\.?\d*-?', line)`: the ordered list of
amount tokens of a line. -/
def findAmounts (s : Str) : List Str := faAux s.length s

/-! ### Number parsing -/

/-- Decimal digits to a natural number. -/
def digitsToNat (cs : Str) : Nat :=
  cs.foldl (fun n c => n * 10 + (c.toNat - 48)) 0

/-- Python `float(s)` on the strings reachable from amount tokens after comma
stripping: an optional integer part, an optional dot, an optional fractional
part, at least one digit overall; anything else raises `ValueError`
(modelled by `none`).  The value is exact (`123.45 ↦ 12345/100`). -/
def parseNumber (cs : Str) : Option ℚ :=
  let ip := cs.takeWhile isDigitChar
  let rest := cs.dropWhile isDigitChar
  match rest with
  | [] => if ip.isEmpty then none else some (digitsToNat ip)
  | '.' :: fp =>
    if fp.all isDigitChar && !(ip.isEmpty && fp.isEmpty) then
      some ((digitsToNat ip : ℚ) + (digitsToNat fp : ℚ) / (10 : ℚ) ^ fp.length)
    else none
  | _ => none

/-- Embedding of the per-token conversion of `_parse_budget_actual_items` and
friends: strip commas, negate on a trailing `-`, parse as float. -/
def parseAmountToken (tok : Str) : Option ℚ :=
  let clean := tok.filter (· ≠ ',')
  match clean.getLast? with
  | some '-' => (parseNumber clean.dropLast).map Neg.neg
  | _ => parseNumber clean

/-- All-or-nothing elementwise parse (the `try`-wrapped conversion loop:
one `ValueError` discards the whole line). -/
def traverseOpt {α β : Type} (f : α → Option β) : List α → Option (List β)
  | [] => some []
  | a :: as =>
    match f a, traverseOpt f as with
    | some b, some bs => some (b :: bs)
    | _, _ => none

/-- `foldM` over `Option`, the model of a Python loop in which an uncaught
exception aborts the whole call. -/
def foldlOpt {σ α : Type} (f : σ → α → Option σ) : σ → List α → Option σ
  | s, [] => some s
  | s, a :: as =>
    match f s a with
    | some s' => foldlOpt f s' as
    | none => none

/-! ### Item-name extraction: `re.match(r'^(.+?)\s+[\d,]', line)` -/

/-- Worker for `itemMatch`; `acc` holds the reversed candidate group.  The
lazy group `(.+?)` ends at the first position followed by a whitespace run
whose first non-whitespace successor is a `[\d,]` character. -/
def imAux : Str → Str → Option Str
  | _, [] => none
  | acc, c :: rest =>
    if !acc.isEmpty && isPySpace c &&
        (match (c :: rest).dropWhile isPySpace with
         | d :: _ => isDigitComma d
         | [] => false) then
      some acc.reverse
    else imAux (c :: acc) rest

/-- Embedding of `re.match(r'^(.+?)\s+[\d,]', line)`, returning group 1. -/
def itemMatch (s : Str) : Option Str := imAux [] s

/-! ### The line-item parsers (`_parse_budget_actual_items`, `_parse_branch_items`) -/

/-- Field names of a 6-column operating-results record, in document column
order. -/
def operatingFields : List Str :=
  [lc "march_actual", lc "march_budget", lc "march_variance",
   lc "ytd_actual", lc "ytd_budget", lc "ytd_variance"]

/-- Field names of a 4-column branch-breakdown record. -/
def branchFields : List Str :=
  [lc "armp_total", lc "army", lc "navy", lc "usmc"]

/-- The skip condition of the item parsers:
`if not line or line.startswith('-') or line.startswith('='): continue`
on the stripped line. -/
def isSkippedLine : Str → Bool
  | [] => true
  | c :: _ => c == '-' || c == '='

/-- Per-line body of the item parsers: strip, skip blank/separator lines,
tokenize, require the arity, extract the name, convert the first `arity`
tokens (a conversion failure skips the line). -/
def parseItemLine (fields : List Str) (arity : Nat) (line : Str) :
    Option (Str × Dict Str ℚ) :=
  if isSkippedLine (pyStrip line) then none
  else if arity ≤ (findAmounts (pyStrip line)).length then
    match itemMatch (pyStrip line) with
    | some g1 =>
      match traverseOpt parseAmountToken ((findAmounts (pyStrip line)).take arity) with
      | some vals => some (pyStrip g1, fields.zip vals)
      | none => none
    | none => none
  else none

/-- One loop iteration of the item parsers over the accumulated dict. -/
def parseItemsStep (fields : List Str) (arity : Nat)
    (items : Dict Str (Dict Str ℚ)) (line : Str) : Dict Str (Dict Str ℚ) :=
  match parseItemLine fields arity line with
  | some nr => dinsert items nr.1 nr.2
  | none => items

/-- The item parsers' loop over the lines of a section. -/
def parseItemLines (fields : List Str) (arity : Nat) (lines : List Str) :
    Dict Str (Dict Str ℚ) :=
  lines.foldl (parseItemsStep fields arity) []

/-- Embedding of `_parse_budget_actual_items`. -/
def parseBudgetActualItems (sectionText : Str) : Dict Str (Dict Str ℚ) :=
  parseItemLines operatingFields 6 (splitLines sectionText)

/-- Embedding of `_parse_branch_items`. -/
def parseBranchItems (sectionText : Str) : Dict Str (Dict Str ℚ) :=
  parseItemLines branchFields 4 (splitLines sectionText)

/-! ### Summary-line extraction -/

/-- Shared body of `_extract_summary_line` and `_extract_branch_summary_line`:
the first line containing the identifier that carries at least `arity` tokens
all of which convert yields the record; otherwise scanning continues.  Lines
are neither stripped nor separator-filtered here, exactly as in the source. -/
def summaryAux (fields : List Str) (arity : Nat) (ident : Str) :
    List Str → Option (Dict Str ℚ)
  | [] => none
  | line :: rest =>
    if pyContains line ident then
      let amounts := findAmounts line
      if arity ≤ amounts.length then
        match traverseOpt parseAmountToken (amounts.take arity) with
        | some vals => some (fields.zip vals)
        | none => summaryAux fields arity ident rest
      else summaryAux fields arity ident rest
    else summaryAux fields arity ident rest

/-- Embedding of `_extract_summary_line` (6 columns). -/
def extractSummaryLine (text ident : Str) : Option (Dict Str ℚ) :=
  summaryAux operatingFields 6 ident (splitLines text)

/-- Embedding of `_extract_branch_summary_line` (4 columns). -/
def extractBranchSummaryLine (text ident : Str) : Option (Dict Str ℚ) :=
  summaryAux branchFields 4 ident (splitLines text)

/-! ### Statement-type detection -/

/-- The four statement classifications of `detect_statement_type`. -/
inductive StatementType : Type
  | branch_breakdown
  | operating_results
  | balance_sheet
  | unknown
deriving DecidableEq, Repr

/-- Embedding of `detect_statement_type`, applied to the concatenated
document text. -/
def detectStatementType (full_text : Str) : StatementType :=
  if pyContains full_text (lc "Branch of Service") then .branch_breakdown
  else if pyContains full_text (lc "Actual vs Budget") then .operating_results
  else if pyContains full_text (lc "Statement of Financial Condition") then .balance_sheet
  else .unknown

/-- The page concatenation performed before detection
(`full_text += page.extract_text() + "\n"`). -/
def joinPages (pages : List Str) : Str :=
  pages.foldl (fun acc p => acc ++ p ++ ['\n']) []

/-! ### `extract_operating_results` -/

/-- The eight category maps assembled by `extract_operating_results`. -/
structure OperatingData : Type where
  revenue : Dict Str (Dict Str ℚ)
  direct_reimbursement : Dict Str (Dict Str ℚ)
  net_revenue : Dict Str (Dict Str ℚ)
  operating_expenses : Dict Str (Dict Str ℚ)
  net_operating_income : Dict Str (Dict Str ℚ)
  other_income : Dict Str (Dict Str ℚ)
  net_income : Dict Str (Dict Str ℚ)
  distributions : Dict Str (Dict Str ℚ)
deriving DecidableEq

/-- The initial, empty category maps. -/
def initOperating : OperatingData := ⟨[], [], [], [], [], [], [], []⟩

/-- Items of one page's section, as used inside the per-page loop. -/
def pageSectionItems (text start_marker end_marker : Str) : Dict Str (Dict Str ℚ) :=
  parseBudgetActualItems (extractSection text start_marker end_marker)

/-- The body of the per-page loop of `extract_operating_results`: three
sections merged with `dict.update`, four summary lines stored under fixed
names when found (`if net_revenue:` — an empty result dict is falsy).  Each
category is updated independently of the others. -/
def processPage (d : OperatingData) (text : Str) : OperatingData :=
  { revenue := dictUpdate d.revenue
      (pageSectionItems text (lc "Revenue") (lc "Direct NAFI"))
    direct_reimbursement := dictUpdate d.direct_reimbursement
      (pageSectionItems text (lc "Direct NAFI") (lc "Net Revenue"))
    operating_expenses := dictUpdate d.operating_expenses
      (pageSectionItems text (lc "Operating Expenses") (lc "Total Operating Expenses"))
    net_revenue :=
      match extractSummaryLine text (lc "Net Revenue") with
      | some r => dinsert d.net_revenue (lc "Net Revenue") r
      | none => d.net_revenue
    net_operating_income :=
      match extractSummaryLine text (lc "Net Operating Income") with
      | some r => dinsert d.net_operating_income (lc "Net Operating Income") r
      | none => d.net_operating_income
    other_income :=
      match extractSummaryLine text (lc "Interest Revenue") with
      | some r => dinsert d.other_income (lc "Interest Revenue") r
      | none => d.other_income
    net_income :=
      match extractSummaryLine text (lc "Net Income/(Loss)") with
      | some r => dinsert d.net_income (lc "Net Income") r
      | none => d.net_income
    distributions := d.distributions }

/-- Embedding of `extract_operating_results`, over the ordered page texts. -/
def extractOperatingResults (pages : List Str) : OperatingData :=
  pages.foldl processPage initOperating

/-- Per-category view of the page fold: merging one page dict after another
with `dict.update`. -/
def updFold (g : Str → Dict Str (Dict Str ℚ)) (init : Dict Str (Dict Str ℚ))
    (pages : List Str) : Dict Str (Dict Str ℚ) :=
  pages.foldl (fun a p => dictUpdate a (g p)) init

/-- Per-category view of the page fold for a summary category: a found line
is stored under the constant key `ck`. -/
def sumFold (h : Str → Option (Dict Str ℚ)) (ck : Str)
    (init : Dict Str (Dict Str ℚ)) (pages : List Str) : Dict Str (Dict Str ℚ) :=
  pages.foldl (fun a p => match h p with | some r => dinsert a ck r | none => a) init

/-! ### `calculate_branch_performance` -/

/-- The three share entries of one revenue item; each conditional evaluates
the branch subscript only when the total is nonzero, exactly as the Python
conditional expressions do, and a missing key propagates as `none`. -/
def branchShareEntry (values : Dict Str ℚ) (total : ℚ) : Option (Dict Str ℚ) := do
  let a ← if total ≠ 0 then (dlookup values (lc "army")).map (fun x => x / total * 100)
          else pure 0
  let n ← if total ≠ 0 then (dlookup values (lc "navy")).map (fun x => x / total * 100)
          else pure 0
  let u ← if total ≠ 0 then (dlookup values (lc "usmc")).map (fun x => x / total * 100)
          else pure 0
  pure [(lc "army_share_pct", a), (lc "navy_share_pct", n), (lc "usmc_share_pct", u)]

/-- One iteration of the revenue-share loop: items whose
`values.get('armp_total', 0)` is zero are passed over entirely. -/
def branchShareStep (perf : Dict Str (Dict Str ℚ)) (item : Str × Dict Str ℚ) :
    Option (Dict Str (Dict Str ℚ)) :=
  if dgetD item.2 (lc "armp_total") 0 ≠ 0 then do
    let total ← dlookup item.2 (lc "armp_total")
    let entry ← branchShareEntry item.2 total
    pure (dinsert perf item.1 entry)
  else pure perf

/-- The `Operating Margin` entry: every subscript here uses `.get` with a
default, so this part never raises. -/
def operatingMarginEntry (net_income total_revenue : Dict Str ℚ) : Dict Str ℚ :=
  [(lc "army_margin_pct",
      if dgetD total_revenue (lc "army") 0 ≠ 0 then
        dgetD net_income (lc "army") 0 / dgetD total_revenue (lc "army") 1 * 100
      else 0),
   (lc "navy_margin_pct",
      if dgetD total_revenue (lc "navy") 0 ≠ 0 then
        dgetD net_income (lc "navy") 0 / dgetD total_revenue (lc "navy") 1 * 100
      else 0),
   (lc "usmc_margin_pct",
      if dgetD total_revenue (lc "usmc") 0 ≠ 0 then
        dgetD net_income (lc "usmc") 0 / dgetD total_revenue (lc "usmc") 1 * 100
      else 0),
   (lc "armp_margin_pct",
      if dgetD total_revenue (lc "armp_total") 0 ≠ 0 then
        dgetD net_income (lc "armp_total") 0 / dgetD total_revenue (lc "armp_total") 1 * 100
      else 0)]

/-- The margin block of `calculate_branch_performance`: guarded by the two
`in` checks and the truthiness of `net_income` and `total_revenue`; the first
revenue item (in insertion order) whose name contains `"Total"` or
`"Gaming Machine Revenue"` is the denominator record. -/
def marginAdjust (branch_data : Dict Str (Dict Str (Dict Str ℚ)))
    (perf : Dict Str (Dict Str ℚ)) : Dict Str (Dict Str ℚ) :=
  if (dlookup branch_data (lc "net_operating_income")).isSome ∧
      (dlookup branch_data (lc "revenue")).isSome then
    match (dgetD branch_data (lc "revenue") []).find?
        (fun it => pyContains it.1 (lc "Total") || pyContains it.1 (lc "Gaming Machine Revenue")) with
    | some tr =>
      if dgetD (dgetD branch_data (lc "net_operating_income") []) (lc "Net Operating Income") [] ≠ []
          ∧ tr.2 ≠ [] then
        dinsert perf (lc "Operating Margin")
          (operatingMarginEntry
            (dgetD (dgetD branch_data (lc "net_operating_income") []) (lc "Net Operating Income") [])
            tr.2)
      else perf
    | none => perf
  else perf

/-- Embedding of `calculate_branch_performance`.  The revenue-share loop uses
unchecked subscripts (`values['army']` …), hence the `Option` result. -/
def calcBranchPerformance (branch_data : Dict Str (Dict Str (Dict Str ℚ))) :
    Option (Dict Str (Dict Str ℚ)) := do
  let perf ←
    match dlookup branch_data (lc "revenue") with
    | some revenue_items => foldlOpt branchShareStep [] revenue_items
    | none => pure []
  pure (marginAdjust branch_data perf)

/-! ### `calculate_variance_analysis` -/

/-- The variance-percentage record of one item.  `ytd_budget` is read
unconditionally (an unchecked subscript), the two variance subscripts only
inside the nonzero-budget branch of each conditional expression. -/
def varianceRecord (values : Dict Str ℚ) (mb : ℚ) : Option (Dict Str ℚ) := do
  let yb ← dlookup values (lc "ytd_budget")
  let mvp ← if mb ≠ 0 then (dlookup values (lc "march_variance")).map (fun x => x / mb * 100)
            else pure 0
  let yvp ← if yb ≠ 0 then (dlookup values (lc "ytd_variance")).map (fun x => x / yb * 100)
            else pure 0
  pure [(lc "march_variance_pct", mvp), (lc "ytd_variance_pct", yvp)]

/-- One item iteration of `calculate_variance_analysis`: only items carrying
a `march_budget` key are processed; the result is written into the category's
inner dict. -/
def vaInnerStep (category : Str) (analysis : Dict Str (Dict Str (Dict Str ℚ)))
    (item : Str × Dict Str ℚ) : Option (Dict Str (Dict Str (Dict Str ℚ))) :=
  match dlookup item.2 (lc "march_budget") with
  | some mb =>
    (varianceRecord item.2 mb).map
      (fun r => dinsert analysis category (dinsert (dgetD analysis category []) item.1 r))
  | none => some analysis

/-- One category iteration: ensure the category key exists, then process its
items in order. -/
def vaOuterStep (analysis : Dict Str (Dict Str (Dict Str ℚ)))
    (catItems : Str × Dict Str (Dict Str ℚ)) : Option (Dict Str (Dict Str (Dict Str ℚ))) :=
  let analysis :=
    if (dlookup analysis catItems.1).isSome then analysis
    else dinsert analysis catItems.1 []
  foldlOpt (vaInnerStep catItems.1) analysis catItems.2

/-- Embedding of `calculate_variance_analysis` over a generic category map. -/
def calcVarianceAnalysis (operating_data : Dict Str (Dict Str (Dict Str ℚ))) :
    Option (Dict Str (Dict Str (Dict Str ℚ))) :=
  foldlOpt vaOuterStep [] operating_data

/-! ### The balance-sheet line parser (`_parse_financial_items`) -/

/-- The suffix part `\s+([\d,]+\.?\d*)-?$` of the balance-sheet regex, tested
at a candidate end of group 1; returns group 2.  The amount subpattern is
matched greedily; because every later piece is optional and the tail must be
empty or a single `-`, the greedy scan is complete. -/
def tailAmountMatch : Str → Option Str
  | [] => none
  | c :: rest =>
    if isPySpace c then
      let body := (c :: rest).dropWhile isPySpace
      let r1 := body.takeWhile isDigitComma
      if r1.isEmpty then none
      else
        let s1 := body.dropWhile isDigitComma
        let p2 : Str × Str :=
          match s1 with
          | '.' :: t => ('.' :: t.takeWhile isDigitChar, t.dropWhile isDigitChar)
          | _ => ([], s1)
        match p2.2 with
        | [] => some (r1 ++ p2.1)
        | ['-'] => some (r1 ++ p2.1)
        | _ => none
    else none

/-- Worker for the leftmost-lazy search of `(.+?)\s+([\d,]+\.?\d*)-?$`:
`acc` holds the reversed candidate group 1. -/
def rsAux : Str → Str → Option (Str × Str)
  | _, [] => none
  | acc, c :: rest =>
    if acc.isEmpty then rsAux [c] rest
    else
      match tailAmountMatch (c :: rest) with
      | some g2 => some (acc.reverse, g2)
      | none => rsAux (c :: acc) rest

/-- Embedding of `re.search(r'(.+?)\s+([\d,]+\.?\d*)-?$', s)` on a stripped
line (which contains no newline): groups 1 and 2 of the match.  A match, when
one exists, always starts at index 0, with the shortest group 1. -/
def regexSearchFinItem (s : Str) : Option (Str × Str) := rsAux [] s

/-- Embedding of `re.sub(r'^(Cash--|Less\s+)', '', item_name)`: the
`Cash--` alternative is tried first; `Less\s+` removes `Less` together with
the greedy whitespace run after it. -/
def cleanItemName (n : Str) : Str :=
  if leadsWith (lc "Cash--") n then n.drop 6
  else if leadsWith (lc "Less") n &&
      (match (n.drop 4) with | c :: _ => isPySpace c | [] => false) then
    (n.drop 4).dropWhile isPySpace
  else n

/-- Per-line body of `_parse_financial_items`: match the label/amount regex
on the stripped line, negate on a trailing `-` of the stripped line, strip
the recognized label prefixes; a float failure skips the line. -/
def parseFinancialLine (line : Str) : Option (Str × ℚ) :=
  let s := pyStrip line
  match regexSearchFinItem s with
  | some g =>
    let amount_str := g.2.filter (· ≠ ',')
    match parseNumber amount_str with
    | some mag =>
      let amount := if s.getLast? = some '-' then -mag else mag
      some (cleanItemName (pyStrip g.1), amount)
    | none => none
  | none => none

/-- One loop iteration of `_parse_financial_items`. -/
def finItemsStep (items : Dict Str ℚ) (line : Str) : Dict Str ℚ :=
  match parseFinancialLine line with
  | some na => dinsert items na.1 na.2
  | none => items

/-- Embedding of `_parse_financial_items`. -/
def parseFinancialItems (sectionText : Str) : Dict Str ℚ :=
  (splitLines sectionText).foldl finItemsStep []

/-! ### Helper views used by the statements -/

/-- The revenue items contributed by one page. -/
def pageRevenueItems (p : Str) : Dict Str (Dict Str ℚ) :=
  pageSectionItems p (lc "Revenue") (lc "Direct NAFI")

/-- The direct-reimbursement items contributed by one page. -/
def pageReimbItems (p : Str) : Dict Str (Dict Str ℚ) :=
  pageSectionItems p (lc "Direct NAFI") (lc "Net Revenue")

/-- The operating-expense items contributed by one page. -/
def pageExpenseItems (p : Str) : Dict Str (Dict Str ℚ) :=
  pageSectionItems p (lc "Operating Expenses") (lc "Total Operating Expenses")

/-- Two-level lookup `analysis[cat][name]` as a single `Option`. -/
def dlookup2 (analysis : Dict Str (Dict Str (Dict Str ℚ))) (cat name : Str) :
    Option (Dict Str ℚ) :=
  match dlookup analysis cat with
  | some c => dlookup c name
  | none => none

/-- A line the item parsers must skip for token reasons: fewer tokens than
the arity, or a conversion failure among the first `arity` tokens. -/
abbrev badTokenLine (arity : Nat) (line : Str) : Prop :=
  (findAmounts (pyStrip line)).length < arity ∨
    (((findAmounts (pyStrip line)).take arity).any
      (fun t => (parseAmountToken t).isNone)) = true

/-! ## Lemmas about the dict model -/

theorem dlookup_dinsert {α β : Type} [DecidableEq α] (d : Dict α β) (k k' : α) (v : β) :
    dlookup (dinsert d k v) k' = if k = k' then some v else dlookup d k' := by
  induction d with
  | nil => rfl
  | cons hd tl ih =>
    obtain ⟨k1, v1⟩ := hd
    by_cases h1 : k1 = k
    · subst h1
      by_cases h2 : k1 = k' <;> simp [dinsert, dlookup, h2]
    · rw [dinsert, if_neg h1, dlookup]
      by_cases h2 : k1 = k'
      · subst h2
        have h3 : ¬ (k = k1) := fun h => h1 h.symm
        simp [dlookup, h3]
      · rw [if_neg h2, ih, dlookup, if_neg h2]

theorem dlookup_dinsert_self {α β : Type} [DecidableEq α] (d : Dict α β) (k : α) (v : β) :
    dlookup (dinsert d k v) k = some v := by
  simp [dlookup_dinsert]

theorem dlookup_dinsert_ne {α β : Type} [DecidableEq α] {d : Dict α β} {k k' : α} {v : β}
    (h : ¬ (k = k')) : dlookup (dinsert d k v) k' = dlookup d k' := by
  simp [dlookup_dinsert, h]

theorem dlookup_eq_none_iff {α β : Type} [DecidableEq α] (d : Dict α β) (k : α) :
    dlookup d k = none ↔ k ∉ dkeys d := by
  induction d with
  | nil => simp [dlookup, dkeys]
  | cons hd tl ih =>
    obtain ⟨k1, v1⟩ := hd
    by_cases h : k1 = k
    · subst h
      simp [dlookup, dkeys]
    · have h' : ¬ (k = k1) := fun hk => h hk.symm
      simp [dlookup, dkeys, h, h', ih]

theorem dkeys_dinsert {α β : Type} [DecidableEq α] (d : Dict α β) (k : α) (v : β) :
    dkeys (dinsert d k v) = if k ∈ dkeys d then dkeys d else dkeys d ++ [k] := by
  induction d with
  | nil => simp [dinsert, dkeys]
  | cons hd tl ih =>
    obtain ⟨k1, v1⟩ := hd
    by_cases h1 : k1 = k
    · subst h1
      simp [dinsert, dkeys]
    · have h1' : ¬ (k = k1) := fun hk => h1 hk.symm
      rw [dinsert, if_neg h1]
      have hcons : dkeys ((k1, v1) :: dinsert tl k v) = k1 :: dkeys (dinsert tl k v) := rfl
      have hcons2 : dkeys ((k1, v1) :: tl) = k1 :: dkeys tl := rfl
      rw [hcons, hcons2, ih]
      by_cases h2 : k ∈ dkeys tl
      · simp [h2, List.mem_cons]
      · have hnotc : ¬ (k ∈ k1 :: dkeys tl) := by
          rw [List.mem_cons]
          rintro (hc | hc)
          · exact h1' hc
          · exact h2 hc
        simp [h2, hnotc]

theorem nodup_append_single {α : Type} {l : List α} {a : α}
    (h : l.Nodup) (ha : a ∉ l) : (l ++ [a]).Nodup := by
  induction l with
  | nil => simp
  | cons b t ih =>
    rw [List.nodup_cons] at h
    have hab : ¬ (b = a) := fun hba => ha (by simp [hba])
    have hat : a ∉ t := fun hmem => ha (by simp [hmem])
    rw [List.cons_append, List.nodup_cons]
    refine ⟨?_, ih h.2 hat⟩
    intro hmem
    rcases List.mem_append.mp hmem with hb | hb
    · exact h.1 hb
    · exact hab (by simpa using hb)

theorem dkeys_dinsert_nodup {α β : Type} [DecidableEq α] {d : Dict α β} (k : α) (v : β)
    (h : (dkeys d).Nodup) : (dkeys (dinsert d k v)).Nodup := by
  rw [dkeys_dinsert]
  by_cases hm : k ∈ dkeys d
  · simpa [hm] using h
  · simpa [hm] using nodup_append_single h hm

theorem dictUpdate_cons_right {α β : Type} [DecidableEq α] (d1 : Dict α β) (kv : α × β)
    (d2 : Dict α β) : dictUpdate d1 (kv :: d2) = dictUpdate (dinsert d1 kv.1 kv.2) d2 := rfl

theorem dlookup_dictUpdate_notin {α β : Type} [DecidableEq α] {d2 : Dict α β} {k : α}
    (h : k ∉ dkeys d2) : ∀ d1, dlookup (dictUpdate d1 d2) k = dlookup d1 k := by
  induction d2 with
  | nil => intro d1; rfl
  | cons hd tl ih =>
    intro d1
    obtain ⟨k1, v1⟩ := hd
    have hck : dkeys ((k1, v1) :: tl) = k1 :: dkeys tl := rfl
    rw [hck] at h
    have h1 : ¬ (k1 = k) := by
      intro hk; exact h (by rw [hk]; exact List.mem_cons_self _ _)
    have h2 : k ∉ dkeys tl := fun hmem => h (List.mem_cons_of_mem _ hmem)
    rw [dictUpdate_cons_right, ih h2, dlookup_dinsert_ne h1]

theorem dlookup_dictUpdate_some {α β : Type} [DecidableEq α] {d2 : Dict α β} {k : α} {v : β}
    (hnd : (dkeys d2).Nodup) (h : dlookup d2 k = some v) :
    ∀ d1, dlookup (dictUpdate d1 d2) k = some v := by
  induction d2 with
  | nil => simp [dlookup] at h
  | cons hd tl ih =>
    intro d1
    obtain ⟨k1, v1⟩ := hd
    rw [dkeys] at hnd
    simp only [List.map_cons, List.nodup_cons] at hnd
    by_cases h1 : k1 = k
    · subst h1
      have hv : v1 = v := by simpa [dlookup] using h
      subst hv
      rw [dictUpdate_cons_right,
        dlookup_dictUpdate_notin (by simpa [dkeys] using hnd.1) (dinsert d1 k1 v1)]
      exact dlookup_dinsert_self d1 k1 v1
    · rw [dlookup] at h
      simp only [if_neg h1] at h
      rw [dictUpdate_cons_right]
      exact ih hnd.2 h (dinsert d1 k1 v1)

/-! ## Lemmas about `strFind` -/

theorem occursAtB_le {text pat : Str} {j : Nat} (h : occursAtB text pat j = true) :
    j ≤ text.length := by
  unfold occursAtB at h
  rw [Bool.and_eq_true] at h
  exact of_decide_eq_true h.1

theorem findAux_some_spec (text pat : Str) :
    ∀ (fuel i j : Nat), findAux text pat i fuel = some j →
      i ≤ j ∧ occursAtB text pat j = true ∧
        ∀ m, i ≤ m → m < j → occursAtB text pat m = false := by
  intro fuel
  induction fuel with
  | zero => intro i j h; simp [findAux] at h
  | succ n ih =>
    intro i j h
    cases hb : occursAtB text pat i with
    | true =>
      simp [findAux, hb] at h
      subst h
      exact ⟨Nat.le_refl i, hb, fun m h1 h2 => absurd (Nat.lt_of_le_of_lt h1 h2) (Nat.lt_irrefl i)⟩
    | false =>
      simp only [findAux, hb, Bool.false_eq_true, if_false] at h
      obtain ⟨h1, h2, h3⟩ := ih (i + 1) j h
      refine ⟨by omega, h2, fun m hm1 hm2 => ?_⟩
      by_cases hmi : m = i
      · subst hmi; exact hb
      · exact h3 m (by omega) hm2

theorem findAux_none_spec (text pat : Str) :
    ∀ (fuel i : Nat), findAux text pat i fuel = none →
      ∀ m, i ≤ m → m < i + fuel → occursAtB text pat m = false := by
  intro fuel
  induction fuel with
  | zero => intro i _ m _ hm; omega
  | succ n ih =>
    intro i h m hm1 hm2
    cases hb : occursAtB text pat i with
    | true => simp [findAux, hb] at h
    | false =>
      simp only [findAux, hb, Bool.false_eq_true, if_false] at h
      by_cases hmi : m = i
      · subst hmi; exact hb
      · exact ih (i + 1) h m (by omega) (by omega)

theorem strFind_some_least {text pat : Str} {start j : Nat}
    (h : strFind text pat start = some j) : leastOcc text pat start j := by
  unfold strFind at h
  by_cases hs : start ≤ text.length
  · rw [if_pos hs] at h
    obtain ⟨h1, h2, h3⟩ := findAux_some_spec text pat _ start j h
    exact ⟨h1, h2, fun m hm hsm => by
      rw [List.mem_range] at hm
      simp [occursAt, h3 m hsm hm]⟩
  · rw [if_neg hs] at h
    exact absurd h (by simp)

theorem strFind_none_spec {text pat : Str} {start : Nat}
    (hs : start ≤ text.length) (h : strFind text pat start = none) :
    ∀ m, start ≤ m → occursAtB text pat m = false := by
  intro m hm
  unfold strFind at h
  rw [if_pos hs] at h
  by_cases hml : m ≤ text.length
  · exact findAux_none_spec text pat _ start h m hm (by omega)
  · unfold occursAtB
    simp [decide_eq_false hml]

theorem strFind_eq_of_least {text pat : Str} {start j : Nat}
    (h : leastOcc text pat start j) : strFind text pat start = some j := by
  obtain ⟨h1, h2, h3⟩ := h
  have hjlen : j ≤ text.length := occursAtB_le h2
  have hs : start ≤ text.length := Nat.le_trans h1 hjlen
  cases hf : strFind text pat start with
  | none =>
    have hfalse := strFind_none_spec hs hf j h1
    simp [h2] at hfalse
  | some j' =>
    obtain ⟨g1, g2, g3⟩ := strFind_some_least hf
    rcases Nat.lt_trichotomy j' j with hlt | heq | hgt
    · exact absurd g2 (h3 j' (List.mem_range.mpr hlt) g1)
    · rw [heq]
    · exact absurd h2 (g3 j (List.mem_range.mpr hgt) h1)

/-! ## Lemmas about `foldlOpt` and `traverseOpt` -/

theorem foldlOpt_cons_some {σ α : Type} {f : σ → α → Option σ} {s : σ} {a : α}
    {as : List α} {out : σ} (h : foldlOpt f s (a :: as) = some out) :
    ∃ s', f s a = some s' ∧ foldlOpt f s' as = some out := by
  cases hf : f s a with
  | none => simp [foldlOpt, hf] at h
  | some s' => exact ⟨s', rfl, by simpa [foldlOpt, hf] using h⟩

theorem traverseOpt_length {α β : Type} {f : α → Option β} :
    ∀ {l : List α} {bs : List β}, traverseOpt f l = some bs → bs.length = l.length := by
  intro l
  induction l with
  | nil => intro bs h; simp [traverseOpt] at h; simp [← h]
  | cons a as ih =>
    intro bs h
    cases hf : f a with
    | none => simp [traverseOpt, hf] at h
    | some b =>
      cases ht : traverseOpt f as with
      | none => simp [traverseOpt, hf, ht] at h
      | some bs' =>
        simp only [traverseOpt, hf, ht] at h
        injection h with h
        rw [← h]
        simp [ih ht]

theorem traverseOpt_none_of_mem {α β : Type} {f : α → Option β} {a : α} :
    ∀ {l : List α}, a ∈ l → f a = none → traverseOpt f l = none := by
  intro l
  induction l with
  | nil => intro h; simp at h
  | cons b t ih =>
    intro hmem hf
    rcases List.mem_cons.mp hmem with hb | hb
    · subst hb
      simp [traverseOpt, hf]
    · rw [traverseOpt, ih hb hf]
      cases f b <;> rfl

/-! ## Lemmas about the item parsers -/

theorem parseItemLine_of_bad {fields : List Str} {arity : Nat} {line : Str}
    (h : badTokenLine arity line) : parseItemLine fields arity line = none := by
  unfold parseItemLine
  by_cases hskip : isSkippedLine (pyStrip line) = true
  · simp [hskip]
  · rw [Bool.not_eq_true] at hskip
    simp only [hskip, Bool.false_eq_true, if_false]
    rcases h with hlen | hbad
    · rw [if_neg (by omega)]
    · rw [List.any_eq_true] at hbad
      obtain ⟨t, hmem, ht⟩ := hbad
      have htn : parseAmountToken t = none := Option.isNone_iff_eq_none.mp ht
      by_cases hlen : arity ≤ (findAmounts (pyStrip line)).length
      · rw [if_pos hlen, traverseOpt_none_of_mem hmem htn]
        cases itemMatch (pyStrip line) <;> rfl
      · rw [if_neg hlen]

theorem parseItemsStep_of_bad {fields : List Str} {arity : Nat} {line : Str}
    (h : badTokenLine arity line) (items : Dict Str (Dict Str ℚ)) :
    parseItemsStep fields arity items line = items := by
  simp [parseItemsStep, parseItemLine_of_bad h]

theorem parseItemsStep_shape (fields : List Str) (arity : Nat)
    (items : Dict Str (Dict Str ℚ)) (line : Str) :
    parseItemsStep fields arity items line = items ∨
      ∃ n r, parseItemLine fields arity line = some (n, r) ∧
        parseItemsStep fields arity items line = dinsert items n r := by
  cases h : parseItemLine fields arity line with
  | none => exact Or.inl (by simp [parseItemsStep, h])
  | some nr =>
    obtain ⟨n2, r2⟩ := nr
    exact Or.inr ⟨n2, r2, rfl, by simp [parseItemsStep, h]⟩


theorem parseItemLines_skip_middle {arity : Nat} {line : Str} (fields : List Str)
    (h : badTokenLine arity line) (l1 l2 : List Str) :
    parseItemLines fields arity (l1 ++ line :: l2) = parseItemLines fields arity (l1 ++ l2) := by
  unfold parseItemLines
  rw [List.foldl_append, List.foldl_append, List.foldl_cons,
    parseItemsStep_of_bad h]

theorem parseItemLine_good (fields : List Str) (arity : Nat) {line g1 : Str} {vs : List ℚ}
    (hskip : isSkippedLine (pyStrip line) = false)
    (hlen : arity ≤ (findAmounts (pyStrip line)).length)
    (him : itemMatch (pyStrip line) = some g1)
    (htr : traverseOpt parseAmountToken ((findAmounts (pyStrip line)).take arity) = some vs) :
    parseItemLine fields arity line = some (pyStrip g1, fields.zip vs) := by
  unfold parseItemLine
  simp only [hskip, Bool.false_eq_true, if_false, if_pos hlen, him, htr]

theorem dkeys_zip_fields {fields : List Str} {vals : List ℚ}
    (h : fields.length ≤ vals.length) : dkeys (fields.zip vals) = fields :=
  List.map_fst_zip fields vals h

theorem parseItemLine_keys {fields : List Str} {arity : Nat} {line : Str}
    {nr : Str × Dict Str ℚ} (hfa : fields.length = arity)
    (h : parseItemLine fields arity line = some nr) : dkeys nr.2 = fields := by
  unfold parseItemLine at h
  by_cases hskip : isSkippedLine (pyStrip line) = true
  · simp [hskip] at h
  · rw [Bool.not_eq_true] at hskip
    simp only [hskip, Bool.false_eq_true, if_false] at h
    by_cases hlen : arity ≤ (findAmounts (pyStrip line)).length
    · rw [if_pos hlen] at h
      cases him : itemMatch (pyStrip line) with
      | none => rw [him] at h; cases h
      | some g1 =>
        rw [him] at h
        cases htr : traverseOpt parseAmountToken ((findAmounts (pyStrip line)).take arity) with
        | none => rw [htr] at h; cases h
        | some vals =>
          rw [htr] at h
          injection h with h
          rw [← h]
          have hvl : vals.length = arity := by
            rw [traverseOpt_length htr, List.length_take]
            omega
          exact dkeys_zip_fields (by omega)
    · rw [if_neg hlen] at h; cases h

theorem parseItemLines_fold_keys {fields : List Str} {arity : Nat}
    (hfa : fields.length = arity) :
    ∀ (lines : List Str) (acc : Dict Str (Dict Str ℚ)),
      (∀ n r, dlookup acc n = some r → dkeys r = fields) →
      ∀ n r, dlookup (lines.foldl (parseItemsStep fields arity) acc) n = some r →
        dkeys r = fields := by
  intro lines
  induction lines with
  | nil => intro acc hacc n r h; exact hacc n r h
  | cons line rest ih =>
    intro acc hacc n r h
    rw [List.foldl_cons] at h
    refine ih _ ?_ n r h
    intro n' r' h'
    rcases parseItemsStep_shape fields arity acc line with heq | ⟨n2, r2, hpl, heq⟩
    · rw [heq] at h'; exact hacc n' r' h'
    · rw [heq, dlookup_dinsert] at h'
      by_cases hn : n2 = n'
      · rw [if_pos hn] at h'
        injection h' with h'
        rw [← h']
        exact parseItemLine_keys hfa hpl
      · rw [if_neg hn] at h'; exact hacc n' r' h'

theorem parseItemLines_keys {fields : List Str} {arity : Nat}
    (hfa : fields.length = arity) (lines : List Str) :
    ∀ n r, dlookup (parseItemLines fields arity lines) n = some r → dkeys r = fields :=
  parseItemLines_fold_keys hfa lines [] (fun n r h => by simp [dlookup] at h)

theorem parseItemLines_nodup (fields : List Str) (arity : Nat) (lines : List Str) :
    (dkeys (parseItemLines fields arity lines)).Nodup := by
  suffices hgen : ∀ (ls : List Str) (acc : Dict Str (Dict Str ℚ)), (dkeys acc).Nodup →
      (dkeys (ls.foldl (parseItemsStep fields arity) acc)).Nodup by
    exact hgen lines [] (by simp [dkeys])
  intro ls
  induction ls with
  | nil => intro acc h; exact h
  | cons line rest ih =>
    intro acc h
    rw [List.foldl_cons]
    refine ih _ ?_
    rcases parseItemsStep_shape fields arity acc line with heq | ⟨n2, r2, _, heq⟩
    · rw [heq]; exact h
    · rw [heq]; exact dkeys_dinsert_nodup _ _ h

theorem summaryAux_keys {fields : List Str} {arity : Nat} {ident : Str}
    (hfa : fields.length = arity) :
    ∀ {lines : List Str} {r : Dict Str ℚ},
      summaryAux fields arity ident lines = some r → dkeys r = fields := by
  intro lines
  induction lines with
  | nil => intro r h; simp [summaryAux] at h
  | cons line rest ih =>
    intro r h
    unfold summaryAux at h
    by_cases hc : pyContains line ident = true
    · rw [if_pos hc] at h
      by_cases hlen : arity ≤ (findAmounts line).length
      · rw [if_pos hlen] at h
        cases htr : traverseOpt parseAmountToken ((findAmounts line).take arity) with
        | none => rw [htr] at h; exact ih h
        | some vals =>
          rw [htr] at h
          injection h with h
          rw [← h]
          have hvl : vals.length = arity := by
            rw [traverseOpt_length htr, List.length_take]
            omega
          exact dkeys_zip_fields (by omega)
      · rw [if_neg hlen] at h; exact ih h
    · rw [if_neg hc] at h; exact ih h

/-! ## Lemmas about the page folds -/

theorem updFold_append (g : Str → Dict Str (Dict Str ℚ)) (init : Dict Str (Dict Str ℚ))
    (l1 l2 : List Str) : updFold g init (l1 ++ l2) = updFold g (updFold g init l1) l2 := by
  simp [updFold, List.foldl_append]

theorem updFold_lookup_none {g : Str → Dict Str (Dict Str ℚ)} {k : Str} :
    ∀ (pages : List Str), (∀ q ∈ pages, dlookup (g q) k = none) →
      ∀ init, dlookup (updFold g init pages) k = dlookup init k := by
  intro pages
  induction pages with
  | nil => intro _ init; rfl
  | cons p ps ih =>
    intro h init
    rw [updFold, List.foldl_cons]
    have hstep := ih (fun q hq => h q (List.mem_cons_of_mem _ hq)) (dictUpdate init (g p))
    rw [updFold] at hstep
    rw [hstep]
    exact dlookup_dictUpdate_notin
      ((dlookup_eq_none_iff _ _).mp (h p (List.mem_cons_self _ _))) init

theorem updFold_last {g : Str → Dict Str (Dict Str ℚ)} {k : Str} {v : Dict Str ℚ}
    {p : Str} {l2 : List Str} (hnd : (dkeys (g p)).Nodup)
    (hp : dlookup (g p) k = some v) (h2 : ∀ q ∈ l2, dlookup (g q) k = none) :
    ∀ (l1 : List Str) (init : Dict Str (Dict Str ℚ)),
      dlookup (updFold g init (l1 ++ p :: l2)) k = some v := by
  intro l1 init
  rw [updFold_append]
  have hcons : updFold g (updFold g init l1) (p :: l2) =
      updFold g (dictUpdate (updFold g init l1) (g p)) l2 := by
    rw [updFold, List.foldl_cons]; rfl
  rw [hcons, updFold_lookup_none l2 h2]
  exact dlookup_dictUpdate_some hnd hp _

theorem sumFold_append (h : Str → Option (Dict Str ℚ)) (ck : Str)
    (init : Dict Str (Dict Str ℚ)) (l1 l2 : List Str) :
    sumFold h ck init (l1 ++ l2) = sumFold h ck (sumFold h ck init l1) l2 := by
  simp [sumFold, List.foldl_append]

theorem sumFold_none {hf : Str → Option (Dict Str ℚ)} {ck : Str} :
    ∀ (pages : List Str), (∀ q ∈ pages, hf q = none) →
      ∀ init, sumFold hf ck init pages = init := by
  intro pages
  induction pages with
  | nil => intro _ init; rfl
  | cons p ps ih =>
    intro h init
    rw [sumFold, List.foldl_cons, h p (List.mem_cons_self _ _)]
    exact ih (fun q hq => h q (List.mem_cons_of_mem _ hq)) init

theorem sumFold_last (hf : Str → Option (Dict Str ℚ)) (ck : Str) {r : Dict Str ℚ}
    {p : Str} {l2 : List Str} (hp : hf p = some r) (h2 : ∀ q ∈ l2, hf q = none) :
    ∀ (l1 : List Str) (init : Dict Str (Dict Str ℚ)),
      dlookup (sumFold hf ck init (l1 ++ p :: l2)) ck = some r := by
  intro l1 init
  rw [sumFold_append]
  have hcons : sumFold hf ck (sumFold hf ck init l1) (p :: l2) =
      sumFold hf ck (dinsert (sumFold hf ck init l1) ck r) l2 := by
    rw [sumFold, List.foldl_cons, hp]; rfl
  rw [hcons, sumFold_none l2 h2]
  exact dlookup_dinsert_self _ _ _

theorem foldPages_revenue :
    ∀ (pages : List Str) (d : OperatingData),
      (pages.foldl processPage d).revenue = updFold pageRevenueItems d.revenue pages := by
  intro pages
  induction pages with
  | nil => intro d; rfl
  | cons p ps ih =>
    intro d
    rw [List.foldl_cons, ih]
    rfl

theorem foldPages_reimb :
    ∀ (pages : List Str) (d : OperatingData),
      (pages.foldl processPage d).direct_reimbursement =
        updFold pageReimbItems d.direct_reimbursement pages := by
  intro pages
  induction pages with
  | nil => intro d; rfl
  | cons p ps ih =>
    intro d
    rw [List.foldl_cons, ih]
    rfl

theorem foldPages_expenses :
    ∀ (pages : List Str) (d : OperatingData),
      (pages.foldl processPage d).operating_expenses =
        updFold pageExpenseItems d.operating_expenses pages := by
  intro pages
  induction pages with
  | nil => intro d; rfl
  | cons p ps ih =>
    intro d
    rw [List.foldl_cons, ih]
    rfl

theorem foldPages_net_revenue :
    ∀ (pages : List Str) (d : OperatingData),
      (pages.foldl processPage d).net_revenue =
        sumFold (fun p => extractSummaryLine p (lc "Net Revenue")) (lc "Net Revenue")
          d.net_revenue pages := by
  intro pages
  induction pages with
  | nil => intro d; rfl
  | cons p ps ih =>
    intro d
    rw [List.foldl_cons, ih]
    rfl

theorem foldPages_net_operating_income :
    ∀ (pages : List Str) (d : OperatingData),
      (pages.foldl processPage d).net_operating_income =
        sumFold (fun p => extractSummaryLine p (lc "Net Operating Income"))
          (lc "Net Operating Income") d.net_operating_income pages := by
  intro pages
  induction pages with
  | nil => intro d; rfl
  | cons p ps ih =>
    intro d
    rw [List.foldl_cons, ih]
    rfl

theorem foldPages_other_income :
    ∀ (pages : List Str) (d : OperatingData),
      (pages.foldl processPage d).other_income =
        sumFold (fun p => extractSummaryLine p (lc "Interest Revenue"))
          (lc "Interest Revenue") d.other_income pages := by
  intro pages
  induction pages with
  | nil => intro d; rfl
  | cons p ps ih =>
    intro d
    rw [List.foldl_cons, ih]
    rfl

theorem foldPages_net_income :
    ∀ (pages : List Str) (d : OperatingData),
      (pages.foldl processPage d).net_income =
        sumFold (fun p => extractSummaryLine p (lc "Net Income/(Loss)"))
          (lc "Net Income") d.net_income pages := by
  intro pages
  induction pages with
  | nil => intro d; rfl
  | cons p ps ih =>
    intro d
    rw [List.foldl_cons, ih]
    rfl

/-! ## Lemmas about `calculate_branch_performance` -/

theorem branchShareStep_ne {perf perf' : Dict Str (Dict Str ℚ)} {item : Str × Dict Str ℚ}
    {name : Str} (hne : ¬ (item.1 = name))
    (h : branchShareStep perf item = some perf') :
    dlookup perf' name = dlookup perf name := by
  unfold branchShareStep at h
  by_cases hg : dgetD item.2 (lc "armp_total") 0 ≠ 0
  · rw [if_pos hg] at h
    cases ht : dlookup item.2 (lc "armp_total") with
    | none => simp [ht] at h
    | some t =>
      cases he : branchShareEntry item.2 t with
      | none => simp [ht, he] at h
      | some entry =>
        simp only [ht, he, Option.bind_eq_bind, Option.some_bind] at h
        injection h with h
        rw [← h]
        exact dlookup_dinsert_ne hne
  · rw [if_neg hg] at h
    injection h with h
    rw [h]

theorem foldShares_preserve {name : Str} :
    ∀ (l : Dict Str (Dict Str ℚ)) (perf out : Dict Str (Dict Str ℚ)),
      (∀ it ∈ l, ¬ (it.1 = name)) → foldlOpt branchShareStep perf l = some out →
      dlookup out name = dlookup perf name := by
  intro l
  induction l with
  | nil =>
    intro perf out _ h
    injection h with h
    rw [h]
  | cons it rest ih =>
    intro perf out hne h
    obtain ⟨p1, hstep, hrest⟩ := foldlOpt_cons_some h
    rw [ih p1 out (fun q hq => hne q (List.mem_cons_of_mem _ hq)) hrest]
    exact branchShareStep_ne (hne it (List.mem_cons_self _ _)) hstep

theorem notmem_dkeys_forall {β : Type} {name : Str} {rest : Dict Str β}
    (h : name ∉ dkeys rest) : ∀ it ∈ rest, ¬ (it.1 = name) := by
  intro it hit heq
  exact h (heq ▸ List.mem_map_of_mem Prod.fst hit)

theorem foldShares_nonzero {name : Str} {values : Dict Str ℚ} {t a n u : ℚ}
    (ht : dlookup values (lc "armp_total") = some t) (htz : t ≠ 0)
    (ha : dlookup values (lc "army") = some a)
    (hn : dlookup values (lc "navy") = some n)
    (hu : dlookup values (lc "usmc") = some u) :
    ∀ (l : Dict Str (Dict Str ℚ)) (perf out : Dict Str (Dict Str ℚ)),
      (dkeys l).Nodup → dlookup l name = some values →
      foldlOpt branchShareStep perf l = some out →
      dlookup out name = some [(lc "army_share_pct", a / t * 100),
        (lc "navy_share_pct", n / t * 100), (lc "usmc_share_pct", u / t * 100)] := by
  intro l
  induction l with
  | nil => intro perf out _ hlk; simp [dlookup] at hlk
  | cons it rest ih =>
    intro perf out hnd hlk hfold
    obtain ⟨k1, v1⟩ := it
    obtain ⟨p1, hstep, hrest⟩ := foldlOpt_cons_some hfold
    have hndc : k1 ∉ dkeys rest ∧ (dkeys rest).Nodup := by
      have hck : dkeys ((k1, v1) :: rest) = k1 :: dkeys rest := rfl
      rw [hck, List.nodup_cons] at hnd
      exact hnd
    by_cases hk : k1 = name
    · subst hk
      rw [dlookup, if_pos rfl] at hlk
      injection hlk with hlk
      subst hlk
      have hguard : dgetD v1 (lc "armp_total") 0 ≠ 0 := by
        rw [dgetD, ht]
        simpa using htz
      have hentry : branchShareEntry v1 t =
          some [(lc "army_share_pct", a / t * 100), (lc "navy_share_pct", n / t * 100),
            (lc "usmc_share_pct", u / t * 100)] := by
        unfold branchShareEntry
        simp [htz, ha, hn, hu]
      unfold branchShareStep at hstep
      rw [if_pos hguard] at hstep
      simp only [ht, hentry, Option.bind_eq_bind, Option.some_bind] at hstep
      injection hstep with hstep
      rw [foldShares_preserve rest p1 out (notmem_dkeys_forall hndc.1) hrest, ← hstep]
      exact dlookup_dinsert_self _ _ _
    · rw [dlookup, if_neg hk] at hlk
      exact ih p1 out hndc.2 hlk hrest

theorem foldShares_zero {name : Str} {values : Dict Str ℚ}
    (ht0 : dgetD values (lc "armp_total") 0 = 0) :
    ∀ (l : Dict Str (Dict Str ℚ)) (perf out : Dict Str (Dict Str ℚ)),
      (dkeys l).Nodup → dlookup l name = some values →
      foldlOpt branchShareStep perf l = some out →
      dlookup out name = dlookup perf name := by
  intro l
  induction l with
  | nil => intro perf out _ hlk; simp [dlookup] at hlk
  | cons it rest ih =>
    intro perf out hnd hlk hfold
    obtain ⟨k1, v1⟩ := it
    obtain ⟨p1, hstep, hrest⟩ := foldlOpt_cons_some hfold
    have hndc : k1 ∉ dkeys rest ∧ (dkeys rest).Nodup := by
      have hck : dkeys ((k1, v1) :: rest) = k1 :: dkeys rest := rfl
      rw [hck, List.nodup_cons] at hnd
      exact hnd
    by_cases hk : k1 = name
    · subst hk
      rw [dlookup, if_pos rfl] at hlk
      injection hlk with hlk
      subst hlk
      unfold branchShareStep at hstep
      rw [if_neg (by rw [ht0]; simp)] at hstep
      injection hstep with hstep
      rw [foldShares_preserve rest p1 out (notmem_dkeys_forall hndc.1) hrest, ← hstep]
    · rw [dlookup, if_neg hk] at hlk
      have hp := ih p1 out hndc.2 hlk hrest
      rw [hp]
      exact branchShareStep_ne (by simpa using hk) hstep

theorem marginAdjust_ne {bd : Dict Str (Dict Str (Dict Str ℚ))}
    {perf : Dict Str (Dict Str ℚ)} {name : Str}
    (hne : ¬ (name = lc "Operating Margin")) :
    dlookup (marginAdjust bd perf) name = dlookup perf name := by
  unfold marginAdjust
  by_cases hA : (dlookup bd (lc "net_operating_income")).isSome ∧
      (dlookup bd (lc "revenue")).isSome
  · rw [if_pos hA]
    cases hf : (dgetD bd (lc "revenue") []).find?
        (fun it => pyContains it.1 (lc "Total") ||
          pyContains it.1 (lc "Gaming Machine Revenue")) with
    | none => rfl
    | some tr =>
      dsimp only
      by_cases hB : dgetD (dgetD bd (lc "net_operating_income") [])
          (lc "Net Operating Income") [] ≠ [] ∧ tr.2 ≠ []
      · rw [if_pos hB]
        exact dlookup_dinsert_ne (fun h => hne h.symm)
      · rw [if_neg hB]
  · rw [if_neg hA]

theorem calcBranchPerformance_split {bd : Dict Str (Dict Str (Dict Str ℚ))}
    {ri : Dict Str (Dict Str ℚ)} {out : Dict Str (Dict Str ℚ)}
    (hrev : dlookup bd (lc "revenue") = some ri)
    (h : calcBranchPerformance bd = some out) :
    ∃ p0, foldlOpt branchShareStep [] ri = some p0 ∧ out = marginAdjust bd p0 := by
  unfold calcBranchPerformance at h
  rw [hrev] at h
  cases hfold : foldlOpt branchShareStep [] ri with
  | none => simp [hfold] at h
  | some p0 =>
    simp only [hfold, Option.bind_eq_bind, Option.some_bind] at h
    injection h with h
    exact ⟨p0, rfl, h.symm⟩

/-! ## Lemmas about `calculate_variance_analysis` -/

theorem dlookup2_dinsert_at {analysis : Dict Str (Dict Str (Dict Str ℚ))}
    {cat name : Str} {r : Dict Str ℚ} :
    dlookup2 (dinsert analysis cat (dinsert (dgetD analysis cat []) name r)) cat name =
      some r := by
  unfold dlookup2
  rw [dlookup_dinsert_self]
  exact dlookup_dinsert_self _ _ _

theorem dlookup2_dinsert_inner_ne {analysis : Dict Str (Dict Str (Dict Str ℚ))}
    {cat name k : Str} {r : Dict Str ℚ} (hk : ¬ (k = name)) :
    dlookup2 (dinsert analysis cat (dinsert (dgetD analysis cat []) k r)) cat name =
      dlookup2 analysis cat name := by
  unfold dlookup2
  rw [dlookup_dinsert_self]
  dsimp only
  rw [dlookup_dinsert_ne hk, dgetD]
  cases dlookup analysis cat with
  | none => rfl
  | some c => rfl

theorem vaInnerStep_ne {cat name : Str} {analysis analysis' : Dict Str (Dict Str (Dict Str ℚ))}
    {item : Str × Dict Str ℚ} (hne : ¬ (item.1 = name))
    (h : vaInnerStep cat analysis item = some analysis') :
    dlookup2 analysis' cat name = dlookup2 analysis cat name := by
  unfold vaInnerStep at h
  cases hmb : dlookup item.2 (lc "march_budget") with
  | none =>
    rw [hmb] at h
    injection h with h
    rw [h]
  | some mb =>
    rw [hmb] at h
    cases hv : varianceRecord item.2 mb with
    | none => simp [hv] at h
    | some r =>
      simp only [hv, Option.map_some] at h
      injection h with h
      rw [← h]
      exact dlookup2_dinsert_inner_ne hne

theorem vaInner_preserve {cat name : Str} :
    ∀ (l : Dict Str (Dict Str ℚ)) (analysis out : Dict Str (Dict Str (Dict Str ℚ))),
      (∀ it ∈ l, ¬ (it.1 = name)) →
      foldlOpt (vaInnerStep cat) analysis l = some out →
      dlookup2 out cat name = dlookup2 analysis cat name := by
  intro l
  induction l with
  | nil =>
    intro analysis out _ h
    injection h with h
    rw [h]
  | cons it rest ih =>
    intro analysis out hne h
    obtain ⟨a1, hstep, hrest⟩ := foldlOpt_cons_some h
    rw [ih a1 out (fun q hq => hne q (List.mem_cons_of_mem _ hq)) hrest]
    exact vaInnerStep_ne (hne it (List.mem_cons_self _ _)) hstep

theorem vaInner_other_cat (cat c : Str) (hc : ¬ (cat = c)) :
    ∀ (l : Dict Str (Dict Str ℚ)) (analysis out : Dict Str (Dict Str (Dict Str ℚ))),
      foldlOpt (vaInnerStep cat) analysis l = some out →
      dlookup out c = dlookup analysis c := by
  intro l
  induction l with
  | nil =>
    intro analysis out h
    injection h with h
    rw [h]
  | cons it rest ih =>
    intro analysis out h
    obtain ⟨a1, hstep, hrest⟩ := foldlOpt_cons_some h
    rw [ih a1 out hrest]
    unfold vaInnerStep at hstep
    cases hmb : dlookup it.2 (lc "march_budget") with
    | none =>
      rw [hmb] at hstep
      injection hstep with hstep
      rw [hstep]
    | some mb =>
      rw [hmb] at hstep
      cases hv : varianceRecord it.2 mb with
      | none => simp [hv] at hstep
      | some r =>
        simp only [hv, Option.map_some] at hstep
        injection hstep with hstep
        rw [← hstep]
        exact (dlookup_dinsert_ne hc).symm ▸ rfl

theorem varianceRecord_eval {values : Dict Str ℚ} {mb yb mv yv : ℚ}
    (hyb : dlookup values (lc "ytd_budget") = some yb)
    (hmv : dlookup values (lc "march_variance") = some mv)
    (hyv : dlookup values (lc "ytd_variance") = some yv) :
    varianceRecord values mb =
      some [(lc "march_variance_pct", if mb ≠ 0 then mv / mb * 100 else 0),
        (lc "ytd_variance_pct", if yb ≠ 0 then yv / yb * 100 else 0)] := by
  unfold varianceRecord
  by_cases hmb : mb ≠ 0 <;> by_cases hybz : yb ≠ 0 <;>
    simp [hyb, hmv, hyv, hmb, hybz]

theorem vaInner_at_name {cat name : Str} {values : Dict Str ℚ} {mb yb mv yv : ℚ}
    (hmb : dlookup values (lc "march_budget") = some mb)
    (hyb : dlookup values (lc "ytd_budget") = some yb)
    (hmv : dlookup values (lc "march_variance") = some mv)
    (hyv : dlookup values (lc "ytd_variance") = some yv) :
    ∀ (l : Dict Str (Dict Str ℚ)) (analysis out : Dict Str (Dict Str (Dict Str ℚ))),
      (dkeys l).Nodup → dlookup l name = some values →
      foldlOpt (vaInnerStep cat) analysis l = some out →
      dlookup2 out cat name =
        some [(lc "march_variance_pct", if mb ≠ 0 then mv / mb * 100 else 0),
          (lc "ytd_variance_pct", if yb ≠ 0 then yv / yb * 100 else 0)] := by
  intro l
  induction l with
  | nil => intro analysis out _ hlk; simp [dlookup] at hlk
  | cons it rest ih =>
    intro analysis out hnd hlk hfold
    obtain ⟨k1, v1⟩ := it
    obtain ⟨a1, hstep, hrest⟩ := foldlOpt_cons_some hfold
    have hndc : k1 ∉ dkeys rest ∧ (dkeys rest).Nodup := by
      have hck : dkeys ((k1, v1) :: rest) = k1 :: dkeys rest := rfl
      rw [hck, List.nodup_cons] at hnd
      exact hnd
    by_cases hk : k1 = name
    · subst hk
      rw [dlookup, if_pos rfl] at hlk
      injection hlk with hlk
      subst hlk
      unfold vaInnerStep at hstep
      rw [hmb] at hstep
      dsimp only at hstep
      rw [varianceRecord_eval hyb hmv hyv] at hstep
      try simp only [Option.map_some] at hstep
      injection hstep with hstep
      rw [vaInner_preserve rest a1 out (notmem_dkeys_forall hndc.1) hrest, ← hstep]
      exact dlookup2_dinsert_at
    · rw [dlookup, if_neg hk] at hlk
      exact ih a1 out hndc.2 hlk hrest

theorem vaOuterStep_ensure_ne (analysis : Dict Str (Dict Str (Dict Str ℚ)))
    (c cat name : Str) (hc : ¬ (c = cat)) :
    dlookup2 (if (dlookup analysis c).isSome then analysis else dinsert analysis c [])
      cat name = dlookup2 analysis cat name := by
  by_cases hs : (dlookup analysis c).isSome
  · rw [if_pos hs]
  · rw [if_neg hs]
    unfold dlookup2
    rw [dlookup_dinsert_ne hc]

theorem vaOuter_preserve {cat name : Str} :
    ∀ (cats : Dict Str (Dict Str (Dict Str ℚ)))
      (analysis out : Dict Str (Dict Str (Dict Str ℚ))),
      (∀ ci ∈ cats, ¬ (ci.1 = cat)) →
      foldlOpt vaOuterStep analysis cats = some out →
      dlookup2 out cat name = dlookup2 analysis cat name := by
  intro cats
  induction cats with
  | nil =>
    intro analysis out _ h
    injection h with h
    rw [h]
  | cons ci rest ih =>
    intro analysis out hne h
    obtain ⟨a1, hstep, hrest⟩ := foldlOpt_cons_some h
    rw [ih a1 out (fun q hq => hne q (List.mem_cons_of_mem _ hq)) hrest]
    unfold vaOuterStep at hstep
    have hci := hne ci (List.mem_cons_self _ _)
    have hinner := vaInner_other_cat ci.1 cat hci ci.2 _ a1 hstep
    unfold dlookup2
    rw [hinner]
    have hens := vaOuterStep_ensure_ne analysis ci.1 cat name hci
    unfold dlookup2 at hens
    exact hens

theorem vaMain {cat name : Str} {values : Dict Str ℚ} {mb yb mv yv : ℚ}
    (hmb : dlookup values (lc "march_budget") = some mb)
    (hyb : dlookup values (lc "ytd_budget") = some yb)
    (hmv : dlookup values (lc "march_variance") = some mv)
    (hyv : dlookup values (lc "ytd_variance") = some yv) :
    ∀ (od : Dict Str (Dict Str (Dict Str ℚ))) {items : Dict Str (Dict Str ℚ)}
      (analysis out : Dict Str (Dict Str (Dict Str ℚ))),
      (dkeys od).Nodup → dlookup od cat = some items →
      (dkeys items).Nodup → dlookup items name = some values →
      foldlOpt vaOuterStep analysis od = some out →
      dlookup2 out cat name =
        some [(lc "march_variance_pct", if mb ≠ 0 then mv / mb * 100 else 0),
          (lc "ytd_variance_pct", if yb ≠ 0 then yv / yb * 100 else 0)] := by
  intro od
  induction od with
  | nil => intro items analysis out _ hoc; simp [dlookup] at hoc
  | cons ci rest ih =>
    intro items analysis out hnd hoc hndi hitem hfold
    obtain ⟨c1, its1⟩ := ci
    obtain ⟨a1, hstep, hrest⟩ := foldlOpt_cons_some hfold
    have hndc : c1 ∉ dkeys rest ∧ (dkeys rest).Nodup := by
      have hck : dkeys ((c1, its1) :: rest) = c1 :: dkeys rest := rfl
      rw [hck, List.nodup_cons] at hnd
      exact hnd
    by_cases hk : c1 = cat
    · subst hk
      rw [dlookup, if_pos rfl] at hoc
      injection hoc with hoc
      subst hoc
      unfold vaOuterStep at hstep
      have h1 := vaInner_at_name hmb hyb hmv hyv its1 _ a1 hndi hitem hstep
      rw [vaOuter_preserve rest a1 out (notmem_dkeys_forall hndc.1) hrest]
      exact h1
    · rw [dlookup, if_neg hk] at hoc
      exact ih a1 out hndc.2 hoc hndi hitem hrest

theorem foldPages_distributions :
    ∀ (pages : List Str) (d : OperatingData),
      (pages.foldl processPage d).distributions = d.distributions := by
  intro pages
  induction pages with
  | nil => intro d; rfl
  | cons p ps ih =>
    intro d
    rw [List.foldl_cons, ih]
    rfl

/-- `leadsWith` holds of any list against itself followed by anything. -/
theorem leadsWith_self_append : ∀ (p r : Str), leadsWith p (p ++ r) = true := by
  intro p
  induction p with
  | nil => intro r; rfl
  | cons c cs ih => intro r; simp [leadsWith, ih]

/-! ## Claim theorems -/

/-- C1 (counterexample): the line `"-X 1 2 3 4 5 6"` satisfies every
antecedent of the claim — six well-formed numeric tokens, a non-empty leading
label (`"-X"`, exactly what the name regex extracts) separated by whitespace
from the first token — yet the 6-column parser emits no record for it,
because the stripped line begins with `'-'` and is discarded as a separator
line before tokenization; the 4-column parser discards `"-X 1 2 3 4"` the
same way. -/
theorem c1_counterexample :
    (findAmounts (pyStrip (lc "-X 1 2 3 4 5 6"))).length = 6 ∧
    itemMatch (pyStrip (lc "-X 1 2 3 4 5 6")) = some (lc "-X") ∧
    traverseOpt parseAmountToken
      ((findAmounts (pyStrip (lc "-X 1 2 3 4 5 6"))).take 6) =
      some [1, 2, 3, 4, 5, 6] ∧
    parseBudgetActualItems (lc "-X 1 2 3 4 5 6") = [] ∧
    (findAmounts (pyStrip (lc "-X 1 2 3 4"))).length = 4 ∧
    itemMatch (pyStrip (lc "-X 1 2 3 4")) = some (lc "-X") ∧
    traverseOpt parseAmountToken
      ((findAmounts (pyStrip (lc "-X 1 2 3 4"))).take 4) =
      some [1, 2, 3, 4] ∧
    parseBranchItems (lc "-X 1 2 3 4") = [] :=
  ⟨by decide, by decide, by decide, by decide, by decide, by decide, by decide, by decide⟩

/-- C1 (amended): for every input line whose stripped text is non-blank and
does not begin with `'-'` or `'='` (separator lines are skipped), that carries
at least the required arity of numeric tokens — 6 for operating results, 4
for branch breakdown — whose first arity tokens all convert, and whose
leading label is extracted by the name regex, the corresponding parser
produces exactly one record, named by the stripped label, whose numeric
fields equal the first arity tokens in document column order (6-column:
march_actual, march_budget, march_variance, ytd_actual, ytd_budget,
ytd_variance; 4-column: armp_total, army, navy, usmc); and the
`"Gaming Machine Revenue"` scenario line yields exactly the record stated in
the spec (trailing minus negates, commas stripped). -/
theorem c1_theorem :
    (∀ (line g1 : Str) (vs : List ℚ),
      isSkippedLine (pyStrip line) = false →
      6 ≤ (findAmounts (pyStrip line)).length →
      itemMatch (pyStrip line) = some g1 →
      traverseOpt parseAmountToken ((findAmounts (pyStrip line)).take 6) = some vs →
      parseItemLine operatingFields 6 line = some (pyStrip g1, operatingFields.zip vs) ∧
      ∀ items, parseItemsStep operatingFields 6 items line =
        dinsert items (pyStrip g1) (operatingFields.zip vs)) ∧
    (∀ (line g1 : Str) (vs : List ℚ),
      isSkippedLine (pyStrip line) = false →
      4 ≤ (findAmounts (pyStrip line)).length →
      itemMatch (pyStrip line) = some g1 →
      traverseOpt parseAmountToken ((findAmounts (pyStrip line)).take 4) = some vs →
      parseItemLine branchFields 4 line = some (pyStrip g1, branchFields.zip vs) ∧
      ∀ items, parseItemsStep branchFields 4 items line =
        dinsert items (pyStrip g1) (branchFields.zip vs)) ∧
    parseBudgetActualItems
      (lc "Gaming Machine Revenue   125,000.00  100,000.00  25,000.00-  980,000 900,000 80,000-") =
      [(lc "Gaming Machine Revenue",
        [(lc "march_actual", 125000), (lc "march_budget", 100000),
         (lc "march_variance", -25000), (lc "ytd_actual", 980000),
         (lc "ytd_budget", 900000), (lc "ytd_variance", -80000)])] := by
  refine ⟨?_, ?_, ?_⟩
  · intro line g1 vs hskip hlen him htr
    have h := parseItemLine_good operatingFields 6 hskip hlen him htr
    exact ⟨h, fun items => by simp [parseItemsStep, h]⟩
  · intro line g1 vs hskip hlen him htr
    have h := parseItemLine_good branchFields 4 hskip hlen him htr
    exact ⟨h, fun items => by simp [parseItemsStep, h]⟩
  · decide

/-- C1 (witness): both general clauses of the amended statement applied at
concrete lines — the 6-column clause at the Gaming Machine Revenue line and
the 4-column clause at `"Slots 10 20 30 40"`. -/
theorem c1_witness :
    parseItemLine operatingFields 6
      (lc "Gaming Machine Revenue   125,000.00  100,000.00  25,000.00-  980,000 900,000 80,000-") =
      some (pyStrip (lc "Gaming Machine Revenue"),
        operatingFields.zip [125000, 100000, -25000, 980000, 900000, -80000]) ∧
    parseItemLine branchFields 4 (lc "Slots 10 20 30 40") =
      some (pyStrip (lc "Slots"), branchFields.zip [10, 20, 30, 40]) :=
  ⟨(c1_theorem.1
      (lc "Gaming Machine Revenue   125,000.00  100,000.00  25,000.00-  980,000 900,000 80,000-")
      (lc "Gaming Machine Revenue")
      [125000, 100000, -25000, 980000, 900000, -80000]
      (by decide) (by decide) (by decide) (by decide)).1,
   (c1_theorem.2.1 (lc "Slots 10 20 30 40") (lc "Slots") [10, 20, 30, 40]
      (by decide) (by decide) (by decide) (by decide)).1⟩

/-- C2 (counterexample): a revenue item whose `armp_total` is exactly 0 is
omitted from the branch-performance output entirely — the result for a
single zero-total item `"Z"` is `some []`, with no `"Z"` entry carrying
0-valued shares, contradicting the claim that the item still appears. -/
theorem c2_counterexample :
    calcBranchPerformance
      [(lc "revenue", [(lc "Z", [(lc "armp_total", 0), (lc "army", 0),
        (lc "navy", 0), (lc "usmc", 0)])])] = some [] ∧
    Option.bind (calcBranchPerformance
      [(lc "revenue", [(lc "Z", [(lc "armp_total", 0), (lc "army", 0),
        (lc "navy", 0), (lc "usmc", 0)])])]) (fun p => dlookup p (lc "Z")) = none :=
  ⟨by decide, by decide⟩

/-- C2 (amended): for every branch-breakdown revenue item record (with unique
item names, a name other than the reserved `"Operating Margin"`, and the four
branch fields present), the branch-performance computation yields, per
branch, `branch_value / armp_total * 100` whenever `armp_total` is nonzero;
an item whose `armp_total` is exactly 0 is omitted from the output entirely
(the inner zero guard of the source is unreachable), rather than appearing
with 0 shares. -/
theorem c2_theorem :
    ∀ (bd : Dict Str (Dict Str (Dict Str ℚ))) (ri : Dict Str (Dict Str ℚ))
      (name : Str) (values : Dict Str ℚ) (t : ℚ) (perf : Dict Str (Dict Str ℚ)),
      dlookup bd (lc "revenue") = some ri →
      (dkeys ri).Nodup →
      dlookup ri name = some values →
      dlookup values (lc "armp_total") = some t →
      ¬ (name = lc "Operating Margin") →
      calcBranchPerformance bd = some perf →
      (∀ a n u : ℚ, t ≠ 0 →
        dlookup values (lc "army") = some a →
        dlookup values (lc "navy") = some n →
        dlookup values (lc "usmc") = some u →
        dlookup perf name = some [(lc "army_share_pct", a / t * 100),
          (lc "navy_share_pct", n / t * 100), (lc "usmc_share_pct", u / t * 100)]) ∧
      (t = 0 → dlookup perf name = none) := by
  intro bd ri name values t perf hrev hnd hlk ht hne hcalc
  obtain ⟨p0, hfold, hout⟩ := calcBranchPerformance_split hrev hcalc
  constructor
  · intro a n u htz ha hn hu
    rw [hout, marginAdjust_ne hne]
    exact foldShares_nonzero ht htz ha hn hu ri [] p0 hnd hlk hfold
  · intro ht0
    rw [hout, marginAdjust_ne hne,
      foldShares_zero (by rw [dgetD, ht]; simpa using ht0) ri [] p0 hnd hlk hfold]
    rfl

/-- C2 (witness): the amended statement applied to a concrete item with
`armp_total = 10` and branch values 2, 3, 5 — the shares are 20%, 30%, 50%. -/
theorem c2_witness :
    calcBranchPerformance
      [(lc "revenue", [(lc "G", [(lc "armp_total", 10), (lc "army", 2),
        (lc "navy", 3), (lc "usmc", 5)])])] =
      some [(lc "G", [(lc "army_share_pct", 20), (lc "navy_share_pct", 30),
        (lc "usmc_share_pct", 50)])] ∧
    dlookup [(lc "G", [(lc "army_share_pct", (20:ℚ)), (lc "navy_share_pct", 30),
      (lc "usmc_share_pct", 50)])] (lc "G") =
      some [(lc "army_share_pct", 20), (lc "navy_share_pct", 30),
        (lc "usmc_share_pct", 50)] := by
  refine ⟨by decide, ?_⟩
  have h := (c2_theorem
    [(lc "revenue", [(lc "G", [(lc "armp_total", 10), (lc "army", 2),
      (lc "navy", 3), (lc "usmc", 5)])])]
    [(lc "G", [(lc "armp_total", 10), (lc "army", 2), (lc "navy", 3), (lc "usmc", 5)])]
    (lc "G")
    [(lc "armp_total", 10), (lc "army", 2), (lc "navy", 3), (lc "usmc", 5)]
    10
    [(lc "G", [(lc "army_share_pct", 20), (lc "navy_share_pct", 30),
      (lc "usmc_share_pct", 50)])]
    (by decide) (by decide) (by decide) (by decide) (by decide) (by decide)).1
    2 3 5 (by decide) (by decide) (by decide) (by decide)
  exact h.trans (by decide)

/-- C3: for every text and pair of markers, the section slicer returns the
substring from the first occurrence of the start marker up to the first
occurrence of the end marker located at or after that start position; the
empty string when the start marker is absent; and the tail of the text from
the start marker when no end-marker occurrence exists at or after the start —
so an end-marker occurrence strictly before the start position never
truncates the slice (the slice depends only on occurrences at or after it). -/
theorem c3_theorem :
    ∀ (text sm em : Str),
      ((∀ j, ¬ occursAt text sm j) → extractSection text sm em = []) ∧
      (∀ s, leastOcc text sm 0 s →
        ((∀ e, s ≤ e → ¬ occursAt text em e) →
          extractSection text sm em = text.drop s) ∧
        (∀ e, leastOcc text em s e →
          extractSection text sm em = (text.drop s).take (e - s))) := by
  intro text sm em
  constructor
  · intro hno
    unfold extractSection
    cases hf : strFind text sm 0 with
    | none => rfl
    | some s => exact absurd (strFind_some_least hf).2.1 (hno s)
  · intro s hs
    have hfind : strFind text sm 0 = some s := strFind_eq_of_least hs
    constructor
    · intro hnoe
      unfold extractSection
      rw [hfind]
      dsimp only
      cases hf2 : strFind text em s with
      | none => rfl
      | some e =>
        exact absurd (strFind_some_least hf2).2.1 (hnoe e (strFind_some_least hf2).1)
    · intro e he
      unfold extractSection
      rw [hfind]
      dsimp only
      rw [strFind_eq_of_least he]

/-- C3 (witness): slicing `"E S x E y"` from `"S"` to `"E"`: the `"E"` at
index 0, before the start marker, does not truncate the slice; the slice runs
to the `"E"` at index 6. -/
theorem c3_witness :
    extractSection (lc "E S x E y") (lc "S") (lc "E") = lc "S x " := by
  have h := ((c3_theorem (lc "E S x E y") (lc "S") (lc "E")).2 2 (by decide)).2 6 (by decide)
  exact h.trans (by decide)

/-- C4: for every category of `extract_operating_results`, when the same item
name is produced on more than one page, the final category map holds the
values from the last page (in ascending page order) that produced it —
last-write-wins via `dict.update` for the three section categories and via
keyed insertion for the four summary categories; `distributions` is never
written; and concretely, with two pages both producing item `"Gaming"`, the
final map holds page 2's values. -/
theorem c4_theorem :
    (∀ (l1 : List Str) (p : Str) (l2 : List Str) (n : Str) (v : Dict Str ℚ),
      dlookup (pageRevenueItems p) n = some v →
      (∀ q ∈ l2, dlookup (pageRevenueItems q) n = none) →
      dlookup (extractOperatingResults (l1 ++ p :: l2)).revenue n = some v) ∧
    (∀ (l1 : List Str) (p : Str) (l2 : List Str) (n : Str) (v : Dict Str ℚ),
      dlookup (pageReimbItems p) n = some v →
      (∀ q ∈ l2, dlookup (pageReimbItems q) n = none) →
      dlookup (extractOperatingResults (l1 ++ p :: l2)).direct_reimbursement n = some v) ∧
    (∀ (l1 : List Str) (p : Str) (l2 : List Str) (n : Str) (v : Dict Str ℚ),
      dlookup (pageExpenseItems p) n = some v →
      (∀ q ∈ l2, dlookup (pageExpenseItems q) n = none) →
      dlookup (extractOperatingResults (l1 ++ p :: l2)).operating_expenses n = some v) ∧
    (∀ (l1 : List Str) (p : Str) (l2 : List Str) (r : Dict Str ℚ),
      extractSummaryLine p (lc "Net Revenue") = some r →
      (∀ q ∈ l2, extractSummaryLine q (lc "Net Revenue") = none) →
      dlookup (extractOperatingResults (l1 ++ p :: l2)).net_revenue
        (lc "Net Revenue") = some r) ∧
    (∀ (l1 : List Str) (p : Str) (l2 : List Str) (r : Dict Str ℚ),
      extractSummaryLine p (lc "Net Operating Income") = some r →
      (∀ q ∈ l2, extractSummaryLine q (lc "Net Operating Income") = none) →
      dlookup (extractOperatingResults (l1 ++ p :: l2)).net_operating_income
        (lc "Net Operating Income") = some r) ∧
    (∀ (l1 : List Str) (p : Str) (l2 : List Str) (r : Dict Str ℚ),
      extractSummaryLine p (lc "Interest Revenue") = some r →
      (∀ q ∈ l2, extractSummaryLine q (lc "Interest Revenue") = none) →
      dlookup (extractOperatingResults (l1 ++ p :: l2)).other_income
        (lc "Interest Revenue") = some r) ∧
    (∀ (l1 : List Str) (p : Str) (l2 : List Str) (r : Dict Str ℚ),
      extractSummaryLine p (lc "Net Income/(Loss)") = some r →
      (∀ q ∈ l2, extractSummaryLine q (lc "Net Income/(Loss)") = none) →
      dlookup (extractOperatingResults (l1 ++ p :: l2)).net_income
        (lc "Net Income") = some r) ∧
    (∀ pages, (extractOperatingResults pages).distributions = []) ∧
    dlookup (extractOperatingResults
        [lc "Revenue\nGaming 1 2 3 4 5 6\nDirect NAFI",
         lc "Revenue\nGaming 7 8 9 10 11 12\nDirect NAFI"]).revenue (lc "Gaming") =
      some [(lc "march_actual", 7), (lc "march_budget", 8), (lc "march_variance", 9),
        (lc "ytd_actual", 10), (lc "ytd_budget", 11), (lc "ytd_variance", 12)] := by
  refine ⟨?_, ?_, ?_, ?_, ?_, ?_, ?_, ?_, ?_⟩
  · intro l1 p l2 n v hp h2
    unfold extractOperatingResults
    rw [foldPages_revenue]
    exact updFold_last (parseItemLines_nodup operatingFields 6 _) hp h2 l1 _
  · intro l1 p l2 n v hp h2
    unfold extractOperatingResults
    rw [foldPages_reimb]
    exact updFold_last (parseItemLines_nodup operatingFields 6 _) hp h2 l1 _
  · intro l1 p l2 n v hp h2
    unfold extractOperatingResults
    rw [foldPages_expenses]
    exact updFold_last (parseItemLines_nodup operatingFields 6 _) hp h2 l1 _
  · intro l1 p l2 r hp h2
    unfold extractOperatingResults
    rw [foldPages_net_revenue]
    exact sumFold_last (fun q => extractSummaryLine q (lc "Net Revenue")) (lc "Net Revenue") hp h2 l1 _
  · intro l1 p l2 r hp h2
    unfold extractOperatingResults
    rw [foldPages_net_operating_income]
    exact sumFold_last (fun q => extractSummaryLine q (lc "Net Operating Income")) (lc "Net Operating Income") hp h2 l1 _
  · intro l1 p l2 r hp h2
    unfold extractOperatingResults
    rw [foldPages_other_income]
    exact sumFold_last (fun q => extractSummaryLine q (lc "Interest Revenue")) (lc "Interest Revenue") hp h2 l1 _
  · intro l1 p l2 r hp h2
    unfold extractOperatingResults
    rw [foldPages_net_income]
    exact sumFold_last (fun q => extractSummaryLine q (lc "Net Income/(Loss)")) (lc "Net Income") hp h2 l1 _
  · intro pages
    unfold extractOperatingResults
    rw [foldPages_distributions]
    rfl
  · decide

/-- C4 (witness): the revenue clause applied with one page producing
`"Gaming"` and an empty tail of later pages. -/
theorem c4_witness :
    dlookup (extractOperatingResults
      [lc "Revenue\nGaming 1 2 3 4 5 6\nDirect NAFI"]).revenue (lc "Gaming") =
      some [(lc "march_actual", 1), (lc "march_budget", 2), (lc "march_variance", 3),
        (lc "ytd_actual", 4), (lc "ytd_budget", 5), (lc "ytd_variance", 6)] :=
  c4_theorem.1 [] (lc "Revenue\nGaming 1 2 3 4 5 6\nDirect NAFI") [] (lc "Gaming")
    [(lc "march_actual", 1), (lc "march_budget", 2), (lc "march_variance", 3),
     (lc "ytd_actual", 4), (lc "ytd_budget", 5), (lc "ytd_variance", 6)]
    (by decide) (by simp)

/-- C5: statement-type detection checks substring containment in fixed
priority order — `"Branch of Service"` wins over `"Actual vs Budget"`, which
wins over `"Statement of Financial Condition"`, else unknown — and a text
containing both of the first two markers classifies as branch_breakdown.
Determinism is inherent: the embedding is a pure function of the text. -/
theorem c5_theorem :
    (∀ text : Str,
      (pyContains text (lc "Branch of Service") = true →
        detectStatementType text = StatementType.branch_breakdown) ∧
      (pyContains text (lc "Branch of Service") = false →
        pyContains text (lc "Actual vs Budget") = true →
        detectStatementType text = StatementType.operating_results) ∧
      (pyContains text (lc "Branch of Service") = false →
        pyContains text (lc "Actual vs Budget") = false →
        pyContains text (lc "Statement of Financial Condition") = true →
        detectStatementType text = StatementType.balance_sheet) ∧
      (pyContains text (lc "Branch of Service") = false →
        pyContains text (lc "Actual vs Budget") = false →
        pyContains text (lc "Statement of Financial Condition") = false →
        detectStatementType text = StatementType.unknown)) ∧
    detectStatementType (lc "x Branch of Service y Actual vs Budget z") =
      StatementType.branch_breakdown := by
  constructor
  · intro text
    refine ⟨?_, ?_, ?_, ?_⟩
    · intro h1
      simp [detectStatementType, h1]
    · intro h1 h2
      simp [detectStatementType, h1, h2]
    · intro h1 h2 h3
      simp [detectStatementType, h1, h2, h3]
    · intro h1 h2 h3
      simp [detectStatementType, h1, h2, h3]
  · decide

/-- C5 (witness): the second clause applied to a text carrying only the
`"Actual vs Budget"` marker. -/
theorem c5_witness :
    detectStatementType (lc "a Actual vs Budget b") = StatementType.operating_results :=
  (c5_theorem.1 (lc "a Actual vs Budget b")).2.1 (by decide) (by decide)

/-- C6: for every record of the operating data that carries its budget and
variance fields, the variance analysis stores, per period,
`variance / budget * 100` when that period's budget is nonzero and exactly 0
when that period's budget is exactly 0, regardless of the actual and variance
values — never a division-by-zero error (the zero-budget branch never reads
the variance field). -/
theorem c6_theorem :
    ∀ (od : Dict Str (Dict Str (Dict Str ℚ))) (cat : Str)
      (items : Dict Str (Dict Str ℚ)) (name : Str) (values : Dict Str ℚ)
      (mb yb mv yv : ℚ) (out : Dict Str (Dict Str (Dict Str ℚ))),
      (dkeys od).Nodup → dlookup od cat = some items →
      (dkeys items).Nodup → dlookup items name = some values →
      dlookup values (lc "march_budget") = some mb →
      dlookup values (lc "ytd_budget") = some yb →
      dlookup values (lc "march_variance") = some mv →
      dlookup values (lc "ytd_variance") = some yv →
      calcVarianceAnalysis od = some out →
      dlookup2 out cat name =
        some [(lc "march_variance_pct", if mb ≠ 0 then mv / mb * 100 else 0),
          (lc "ytd_variance_pct", if yb ≠ 0 then yv / yb * 100 else 0)] ∧
      (mb = 0 → dlookup2 out cat name =
        some [(lc "march_variance_pct", 0),
          (lc "ytd_variance_pct", if yb ≠ 0 then yv / yb * 100 else 0)]) := by
  intro od cat items name values mb yb mv yv out hnd hoc hndi hitem hmb hyb hmv hyv hcalc
  have h := vaMain hmb hyb hmv hyv od [] out hnd hoc hndi hitem hcalc
  refine ⟨h, fun hmb0 => ?_⟩
  rw [h]
  simp [hmb0]

/-- C6 (witness): the theorem applied to a concrete record with
`march_budget = 0` (march variance % is 0 despite the nonzero variance 5)
and `ytd_budget = 4`, `ytd_variance = 2` (ytd variance % is 50). -/
theorem c6_witness :
    dlookup2 [(lc "revenue", [(lc "G", [(lc "march_variance_pct", 0),
        (lc "ytd_variance_pct", 50)])])] (lc "revenue") (lc "G") =
      some [(lc "march_variance_pct", 0), (lc "ytd_variance_pct", 50)] := by
  have h := (c6_theorem
    [(lc "revenue", [(lc "G",
      [(lc "march_actual", 1), (lc "march_budget", 0), (lc "march_variance", 5),
       (lc "ytd_actual", 2), (lc "ytd_budget", 4), (lc "ytd_variance", 2)])])]
    (lc "revenue")
    [(lc "G",
      [(lc "march_actual", 1), (lc "march_budget", 0), (lc "march_variance", 5),
       (lc "ytd_actual", 2), (lc "ytd_budget", 4), (lc "ytd_variance", 2)])]
    (lc "G")
    [(lc "march_actual", 1), (lc "march_budget", 0), (lc "march_variance", 5),
     (lc "ytd_actual", 2), (lc "ytd_budget", 4), (lc "ytd_variance", 2)]
    0 4 5 2
    [(lc "revenue", [(lc "G", [(lc "march_variance_pct", 0),
      (lc "ytd_variance_pct", 50)])])]
    (by decide) (by decide) (by decide) (by decide) (by decide) (by decide)
    (by decide) (by decide) (by rfl)).2 rfl
  have hconv : dlookup2 [(lc "revenue", [(lc "G", [(lc "march_variance_pct", 0),
      (lc "ytd_variance_pct", 50)])])] (lc "revenue") (lc "G") =
      some [(lc "march_variance_pct", (0:ℚ)),
        (lc "ytd_variance_pct", if (4:ℚ) ≠ 0 then 2 / 4 * 100 else 0)] := h
  exact hconv.trans (by decide)

/-- C7: every line of section text either adds one complete record or leaves
the item mapping unchanged; a line with fewer than six numeric tokens, or
whose conversion fails on one of the first six tokens, is skipped entirely
(no partial record) and parsing of the remaining lines continues — the
embedding is total, so no exception escapes the per-line handling. -/
theorem c7_theorem :
    (∀ (line : Str) (items : Dict Str (Dict Str ℚ)), badTokenLine 6 line →
      parseItemsStep operatingFields 6 items line = items) ∧
    (∀ (line : Str) (items : Dict Str (Dict Str ℚ)),
      parseItemsStep operatingFields 6 items line = items ∨
      ∃ n r, parseItemLine operatingFields 6 line = some (n, r) ∧
        parseItemsStep operatingFields 6 items line = dinsert items n r) ∧
    (∀ (line : Str) (l1 l2 : List Str), badTokenLine 6 line →
      parseItemLines operatingFields 6 (l1 ++ line :: l2) =
        parseItemLines operatingFields 6 (l1 ++ l2)) := by
  refine ⟨?_, ?_, ?_⟩
  · intro line items h
    exact parseItemsStep_of_bad h items
  · intro line items
    exact parseItemsStep_shape operatingFields 6 items line
  · intro line l1 l2 h
    exact parseItemLines_skip_middle operatingFields h l1 l2

/-- C7 (witness): the line `"Foo 1 2 3"` has only three tokens; it adds
nothing, and removing it from a section leaves the parse unchanged. -/
theorem c7_witness :
    parseItemsStep operatingFields 6 [] (lc "Foo 1 2 3") = [] ∧
    parseItemLines operatingFields 6 [lc "Foo 1 2 3", lc "G 1 2 3 4 5 6"] =
      parseItemLines operatingFields 6 [lc "G 1 2 3 4 5 6"] :=
  ⟨c7_theorem.1 (lc "Foo 1 2 3") [] (by decide),
   c7_theorem.2.2 (lc "Foo 1 2 3") [] [lc "G 1 2 3 4 5 6"] (by decide)⟩

/-- C8: for every balance-sheet section line on which the label/amount regex
matches (label, whitespace, one numeric amount at end of line, optional
trailing minus) and whose amount converts, the stored amount is the negation
of the parsed magnitude exactly when the stripped line ends with `'-'` and
the non-negative magnitude otherwise; and the recognized prefixes `"Cash--"`
and `"Less "` (with its whitespace run) are removed from the label before the
item is stored. -/
theorem c8_theorem :
    (∀ (line : Str) (g : Str × Str) (q : ℚ),
      regexSearchFinItem (pyStrip line) = some g →
      parseNumber (g.2.filter (· ≠ ',')) = some q →
      parseFinancialLine line = some (cleanItemName (pyStrip g.1),
        if (pyStrip line).getLast? = some '-' then -q else q) ∧
      ∀ items, finItemsStep items line = dinsert items (cleanItemName (pyStrip g.1))
        (if (pyStrip line).getLast? = some '-' then -q else q)) ∧
    (∀ r : Str, cleanItemName (lc "Cash--" ++ r) = r) ∧
    (∀ r : Str, (∀ c, r.head? = some c → isPySpace c = false) →
      cleanItemName (lc "Less " ++ r) = r) := by
  refine ⟨?_, ?_, ?_⟩
  · intro line g q hre hq
    obtain ⟨g1, g2⟩ := g
    have hp : parseFinancialLine line = some (cleanItemName (pyStrip g1),
        if (pyStrip line).getLast? = some '-' then -q else q) := by
      unfold parseFinancialLine
      dsimp only
      rw [hre]
      dsimp only
      rw [hq]
    exact ⟨hp, fun items => by simp [finItemsStep, hp]⟩
  · intro r
    have h1 : leadsWith (lc "Cash--") (lc "Cash--" ++ r) = true :=
      leadsWith_self_append _ r
    have h6 : (lc "Cash--").length = 6 := rfl
    have hdrop : (lc "Cash--" ++ r).drop 6 = r := by rw [← h6, List.drop_left]
    unfold cleanItemName
    simp [h1, hdrop]
  · intro r hr
    have h1 : leadsWith (lc "Cash--") (lc "Less " ++ r) = false := rfl
    have h2 : (leadsWith (lc "Less") (lc "Less " ++ r) &&
        (match ((lc "Less " ++ r).drop 4) with
         | c :: _ => isPySpace c
         | [] => false)) = true := rfl
    have hdrop : (lc "Less " ++ r).drop 4 = ' ' :: r := rfl
    have hsp : isPySpace ' ' = true := rfl
    have hdw : List.dropWhile isPySpace (' ' :: r) = r := by
      cases r with
      | nil => rfl
      | cons c t =>
        have hc : isPySpace c = false := hr c rfl
        simp [List.dropWhile_cons, hsp, hc]
    unfold cleanItemName
    rw [h1, if_neg Bool.false_ne_true, h2, if_pos rfl, hdrop]
    exact hdw

/-- C8 (witness): the line `"Cash--Checking 1,234.56-"` stores the item
`"Checking"` with amount `-1234.56`. -/
theorem c8_witness :
    parseFinancialLine (lc "Cash--Checking 1,234.56-") =
      some (lc "Checking", -((123456 : ℚ) / 100)) := by
  have h := (c8_theorem.1 (lc "Cash--Checking 1,234.56-")
    (lc "Cash--Checking", lc "1,234.56") ((123456 : ℚ) / 100)
    (by decide) (by decide)).1
  exact h.trans (by decide)

/-- C9: every record stored by the 6-column line parser or the 6-column
summary-line extractor has exactly the six keys march_actual, march_budget,
march_variance, ytd_actual, ytd_budget, ytd_variance, in that order, and
every record stored by the 4-column parser or 4-column summary extractor has
exactly the four keys armp_total, army, navy, usmc; each key maps to a parsed
rational value by construction, so no record with extra, missing, or
non-numeric fields is ever placed in a category map. -/
theorem c9_theorem :
    (∀ (sectionText : Str) (n : Str) (r : Dict Str ℚ),
      dlookup (parseBudgetActualItems sectionText) n = some r →
        dkeys r = operatingFields) ∧
    (∀ (sectionText : Str) (n : Str) (r : Dict Str ℚ),
      dlookup (parseBranchItems sectionText) n = some r → dkeys r = branchFields) ∧
    (∀ (text ident : Str) (r : Dict Str ℚ),
      extractSummaryLine text ident = some r → dkeys r = operatingFields) ∧
    (∀ (text ident : Str) (r : Dict Str ℚ),
      extractBranchSummaryLine text ident = some r → dkeys r = branchFields) := by
  refine ⟨?_, ?_, ?_, ?_⟩
  · intro s n r h
    exact parseItemLines_keys rfl _ n r h
  · intro s n r h
    exact parseItemLines_keys rfl _ n r h
  · intro t i r h
    exact summaryAux_keys rfl h
  · intro t i r h
    exact summaryAux_keys rfl h

/-- C9 (witness): the record parsed from `"G 1 2 3 4 5 6"` carries exactly
the six operating keys. -/
theorem c9_witness :
    dkeys [(lc "march_actual", (1:ℚ)), (lc "march_budget", 2), (lc "march_variance", 3),
      (lc "ytd_actual", 4), (lc "ytd_budget", 5), (lc "ytd_variance", 6)] =
      operatingFields :=
  c9_theorem.1 (lc "G 1 2 3 4 5 6") (lc "G")
    [(lc "march_actual", 1), (lc "march_budget", 2), (lc "march_variance", 3),
     (lc "ytd_actual", 4), (lc "ytd_budget", 5), (lc "ytd_variance", 6)]
    (by decide)

/-- C10: a line consisting solely of whitespace-separated numeric tokens and
no textual label still yields a record: on `"1 2 3 4 5 6"` the 6-column
parser takes the text of the first token as the item name (`"1"`) and also
consumes that token as `march_actual = 1`; the 4-column parser behaves the
same way on `"1 2 3 4"`. -/
theorem c10_theorem :
    parseBudgetActualItems (lc "1 2 3 4 5 6") =
      [(lc "1", [(lc "march_actual", 1), (lc "march_budget", 2), (lc "march_variance", 3),
        (lc "ytd_actual", 4), (lc "ytd_budget", 5), (lc "ytd_variance", 6)])] ∧
    parseBranchItems (lc "1 2 3 4") =
      [(lc "1", [(lc "armp_total", 1), (lc "army", 2), (lc "navy", 3), (lc "usmc", 4)])] :=
  ⟨by decide, by decide⟩

end FinExtract
